import Mathlib

/-! # Conversation buffer and tool-calling loop of `idrinkyourmilkshake`

A shallow embedding of `openai/buffer.go` and `openai/client.go` (with the
argument checks of `browser/browser.go` and `request/http.go`).

* Go slices are Lean lists; a run-time panic (failed type assertion, slice
  bounds, index out of range, a `Must*` call of the browser library) is an
  explicit `Panic` value.
* Go `error` values are represented by their message text;
  `fmt.Errorf("p: %w", err)` is `"p: " ++ err`.
* The tokenizer, the completion endpoint, `json.Unmarshal`, the browser and the
  network are parameters of the development (`est`, `Env`).
* Token counts are `int` in Go; they are sums of string lengths and cannot
  overflow 64 bits, so they are modelled in `Int` without wrap-around.
-/

namespace Milkshake

deriving instance DecidableEq for Except

/-! ## Messages -/

/-- A tool call requested by the completion endpoint
(`openai.ChatCompletionMessageToolCall`): `ID`, `Function.Name`,
`Function.Arguments`. -/
structure ToolCall where
  ID : String
  Name : String
  Arguments : String
  deriving DecidableEq, Repr

/-- The message of a completion choice (`openai.ChatCompletionMessage`). -/
structure ChatCompletionMessage where
  Content : String
  ToolCalls : List ToolCall
  deriving DecidableEq, Repr

/-- The members of `openai.ChatCompletionMessageParamUnion` that occur in the
program: the four `...MessageParam` structs built by `SystemMessage`,
`UserMessage`, `AssistantMessage`, `ToolMessage`, and the raw response message
appended by `Client.Execute`. -/
inductive Message where
  | system (content : String)
  | user (content : String)
  | assistant (content : String)
  | tool (toolCallID : String) (content : String)
  | completion (msg : ChatCompletionMessage)
  deriving DecidableEq, Repr

/-- Run-time panics of the Go program. -/
inductive Panic where
  | typeAssertion
  | sliceBounds
  | indexOutOfRange
  | must
  deriving DecidableEq, Repr

/-! ## `openai/buffer.go` -/

/-- The struct `Buffer`. -/
structure Buffer where
  Messages : List Message
  maxTokens : Int
  deriving DecidableEq, Repr

/-- `NewBuffer(systemPrompt, userPrompt)`. -/
def NewBuffer (systemPrompt userPrompt : String) : Buffer :=
  { Messages := [Message.system systemPrompt, Message.user userPrompt],
    maxTokens := 128000 }

/-- `Buffer.Add(role, content)`: unsupported roles fall back to a user
message. -/
def Buffer.Add (b : Buffer) (role content : String) : Buffer :=
  if role = "system" then { b with Messages := b.Messages ++ [Message.system content] }
  else if role = "user" then { b with Messages := b.Messages ++ [Message.user content] }
  else if role = "assistant" then
    { b with Messages := b.Messages ++ [Message.assistant content] }
  else { b with Messages := b.Messages ++ [Message.user content] }

/-- The token estimator `Buffer.estimateTokens(role, msg)`: it returns `0` or
`4 + len(Encode(msg)) + len(Encode(role))`, a non-negative `int`. The
tokenizer is an external library, so the estimator is a parameter. -/
abbrev Estimator := String → String → Nat

/-- The type switch inside the loop of `Buffer.Truncate`: the number of tokens
added to `totalTokens` for a message (`default:` adds nothing). -/
def msgTokens (est : Estimator) : Message → Int
  | Message.assistant c => (est "assistant" c : Int)
  | Message.user c => (est "user" c : Int)
  | Message.system c => (est "system" c : Int)
  | Message.tool _ c => (est "tool" c : Int)
  | Message.completion _ => 0

/-- Sum of the estimated token costs of a message sequence. -/
def tokensOf (est : Estimator) (ms : List Message) : Int :=
  (ms.map (msgTokens est)).sum

/-- The slice expression `s[2:]`: it panics unless `2 <= len(s)`. -/
def sliceFrom2 (s : List Message) : Except Panic (List Message) :=
  if 2 ≤ s.length then Except.ok (s.drop 2) else Except.error Panic.sliceBounds

/-- The loop `for i := len(buffer.Messages) - 1; i >= 2; i--` of
`Buffer.Truncate`; the first argument lists `Messages[len-1]`, ...,
`Messages[2]` in the order the loop visits them. -/
def truncateLoop (est : Estimator) (maxTokens : Int) :
    List Message → Int → List Message → Except Panic (List Message)
  | [], _, truncatedMessages => Except.ok truncatedMessages
  | msg :: older, totalTokens, truncatedMessages =>
    let totalTokens := totalTokens + msgTokens est msg
    if totalTokens ≤ maxTokens then
      match sliceFrom2 truncatedMessages with
      | Except.error p => Except.error p
      | Except.ok tl => truncateLoop est maxTokens older totalTokens (msg :: tl)
    else Except.ok truncatedMessages

/-- `Buffer.Truncate()`. The buffer is updated in place in Go; here the updated
buffer is the result. -/
def Buffer.Truncate (est : Estimator) (buffer : Buffer) : Except Panic Buffer :=
  match buffer.Messages with
  | [] => Except.ok buffer
  | [_] => Except.ok buffer
  | m0 :: m1 :: rest =>
    let maxTokens := buffer.maxTokens - 500
    match m0 with
    | Message.system c0 =>
      match m1 with
      | Message.user c1 =>
        let totalTokens : Int := 0 + (est "system" c0 : Int) + (est "user" c1 : Int)
        match truncateLoop est maxTokens rest.reverse totalTokens [m0, m1] with
        | Except.error p => Except.error p
        | Except.ok truncatedMessages =>
          Except.ok { buffer with Messages := truncatedMessages }
      | _ => Except.error Panic.typeAssertion
    | _ => Except.error Panic.typeAssertion

/-! ## Tools: `models/tool.go`, `browser/browser.go`, `request/http.go` -/

/-- A decoded JSON value (`any`); the program only ever asks whether a value is
a string, so every other JSON value is kept as its raw text. -/
inductive JSONValue where
  | str (s : String)
  | other (raw : String)
  deriving DecidableEq, Repr

/-- The decoded argument map `map[string]any`. -/
abbrev Args := List (String × JSONValue)

/-- The comma-ok type assertion `args[key].(string)`. -/
def Args.str (args : Args) (key : String) : Option String :=
  match args.lookup key with
  | some (JSONValue.str s) => some s
  | _ => none

/-- The five implementations of `ToolExecutor` / `models.ToolType`. -/
inductive Executor where
  | BrowserExtractor
  | BrowserNavigator
  | BrowserJavaScriptExecutor
  | BrowserClicker
  | HTTPRequest
  deriving DecidableEq, Repr

/-- The map returned by a `Schema()` method: property names with their types,
and the `"required"` list. -/
structure Schema where
  properties : List (String × String)
  required : List String
  deriving DecidableEq, Repr

/-- The `Schema()` method of each tool. -/
def Executor.Schema : Executor → Schema
  | Executor.BrowserExtractor =>
    { properties := [("selector", "string")], required := ["selector"] }
  | Executor.BrowserNavigator => { properties := [("url", "string")], required := ["url"] }
  | Executor.BrowserJavaScriptExecutor =>
    { properties := [("script", "string")], required := ["script"] }
  | Executor.BrowserClicker => { properties := [("selector", "string")], required := ["selector"] }
  | Executor.HTTPRequest =>
    { properties := [("url", "string"), ("body", "string"), ("headers", "object")],
      required := ["url"] }

/-- A value of the interface `models.ToolType`: the dynamic type and the struct
fields the constructors set. -/
structure ToolType where
  executor : Executor
  ToolName : String
  ToolDescription : String
  Required : List String
  deriving DecidableEq, Repr

/-- The method `Name()`. -/
def ToolType.Name (t : ToolType) : String := t.ToolName

/-- The method `Description()`. -/
def ToolType.Description (t : ToolType) : String := t.ToolDescription

/-- The method `Schema()`. -/
def ToolType.Schema (t : ToolType) : Schema := t.executor.Schema

/-- `browser.NewBrowserExtractor()`. -/
def NewBrowserExtractor : ToolType :=
  { executor := Executor.BrowserExtractor, ToolName := "extract_page_content",
    ToolDescription := "Extracts content from the current page", Required := ["selector"] }

/-- `browser.NewBrowserNavigator()`. -/
def NewBrowserNavigator : ToolType :=
  { executor := Executor.BrowserNavigator, ToolName := "browser_navigate",
    ToolDescription := "Navigates to a URL", Required := ["url"] }

/-- `browser.NewBrowserJavaScriptExecutor()`. -/
def NewBrowserJavaScriptExecutor : ToolType :=
  { executor := Executor.BrowserJavaScriptExecutor, ToolName := "browser_execute_js",
    ToolDescription := "Executes JavaScript in the browser", Required := ["script"] }

/-- `browser.NewBrowserClicker()`. -/
def NewBrowserClicker : ToolType :=
  { executor := Executor.BrowserClicker, ToolName := "browser_click",
    ToolDescription := "Clicks an element on the current page", Required := ["selector"] }

/-- `request.NewHTTPRequest()`. -/
def NewHTTPRequest : ToolType :=
  { executor := Executor.HTTPRequest, ToolName := "http_request",
    ToolDescription := "Makes an HTTP request to the specified URL", Required := ["url"] }

/-- The slice `availableTools` of `Client.Execute` (`models.NewTool` is the
identity). -/
def availableTools : List ToolType :=
  [NewBrowserExtractor, NewBrowserNavigator, NewBrowserJavaScriptExecutor, NewBrowserClicker,
    NewHTTPRequest]

/-- A Go result `(T, error)` of a call that may also panic. -/
inductive Res (α : Type) where
  | ok (a : α)
  | err (e : String)
  | panic (p : Panic)
  deriving DecidableEq, Repr

/-- What the browser part of `BrowserExtractor.Execute` does for a selector:
`page.MustElement` panics or yields an element (possibly nil), `element.HTML()`
and `htmltomarkdown.ConvertString` may fail. -/
inductive ExtractOutcome where
  | panic
  | nilElement
  | htmlError (e : String)
  | convertError (e : String)
  | markdown (s : String)
  deriving DecidableEq, Repr

/-- What the network part of `HTTPRequest.Execute` does: `http.NewRequest`,
`client.Do` or `io.ReadAll` fails, or a response with a status code and a body
is read. -/
inductive HTTPOutcome where
  | failure (e : String)
  | response (statusCode : Int) (body : String)
  deriving DecidableEq, Repr

/-- An entry of the `Tools` field of the completion request. -/
structure ChatCompletionToolParam where
  Name : String
  Description : String
  Parameters : Schema
  deriving DecidableEq, Repr

/-- The fields of `openai.ChatCompletionNewParams` that vary: `Messages` and
`Tools` (model, temperature and response format are constants). -/
structure ChatCompletionNewParams where
  Messages : List Message
  Tools : List ChatCompletionToolParam
  deriving DecidableEq, Repr

/-- A completion choice. -/
structure ChatCompletionChoice where
  Message : ChatCompletionMessage
  deriving DecidableEq, Repr

/-- The response `openai.ChatCompletion`. -/
structure ChatCompletion where
  Choices : List ChatCompletionChoice
  deriving DecidableEq, Repr

/-- The external collaborators, as functions of an explicit world state `σ`:
the completion endpoint, `json.Unmarshal` into `map[string]any`, the browser
session and the network. A browser call that panics (`Must*`) is `none`. -/
structure Env (σ : Type) where
  complete : ChatCompletionNewParams → σ → Except String ChatCompletion × σ
  unmarshal : String → Except String Args
  extract : String → σ → ExtractOutcome × σ
  navigate : String → σ → Option σ
  evalJS : String → σ → Option (String × σ)
  click : String → σ → Option σ
  http : String → String → Args → σ → HTTPOutcome × σ

/-- The `Execute(args)` methods of the five tools: the argument checks and
the default values are those of the source, the side effects come from `Env`. -/
def Executor.Execute {σ : Type} (env : Env σ) (ex : Executor) (args : Args) (w : σ) :
    Res String × σ :=
  match ex with
  | Executor.BrowserExtractor =>
    let selector := (args.str "selector").getD "body"
    match env.extract selector w with
    | (ExtractOutcome.panic, w1) => (Res.panic Panic.must, w1)
    | (ExtractOutcome.nilElement, w1) => (Res.err ("element not found: " ++ selector), w1)
    | (ExtractOutcome.htmlError e, w1) => (Res.err ("error getting HTML: " ++ e), w1)
    | (ExtractOutcome.convertError e, w1) =>
      (Res.err ("error converting HTML to markdown: " ++ e), w1)
    | (ExtractOutcome.markdown s, w1) => (Res.ok s, w1)
  | Executor.BrowserNavigator =>
    match args.str "url" with
    | none => (Res.err "no URL provided", w)
    | some url =>
      match env.navigate url w with
      | none => (Res.panic Panic.must, w)
      | some w1 => (Res.ok ("Navigated to " ++ url), w1)
  | Executor.BrowserJavaScriptExecutor =>
    match args.str "script" with
    | none => (Res.err "no script provided", w)
    | some script =>
      match env.evalJS script w with
      | none => (Res.panic Panic.must, w)
      | some (out, w1) => (Res.ok out, w1)
  | Executor.BrowserClicker =>
    match args.str "selector" with
    | none => (Res.err "no selector provided", w)
    | some selector =>
      match env.click selector w with
      | none => (Res.panic Panic.must, w)
      | some w1 => (Res.ok ("clicked " ++ selector), w1)
  | Executor.HTTPRequest =>
    let method := (args.str "method").getD "GET"
    match args.str "url" with
    | none => (Res.err "url is required", w)
    | some url =>
      match env.http method url args w with
      | (HTTPOutcome.failure e, w1) => (Res.err e, w1)
      | (HTTPOutcome.response statusCode body, w1) =>
        if statusCode < 200 ∨ statusCode ≥ 300 then
          (Res.err ("request failed with status code " ++ toString statusCode ++ ": " ++ body),
            w1)
        else (Res.ok body, w1)

/-! ## `openai/client.go` -/

/-- The map built by `getStatusMessages`. -/
structure LogDetails where
  start_message : String
  success_message : String
  params : List String
  deriving DecidableEq, Repr

/-- `Client.getStatusMessages(toolName, params)`. -/
def getStatusMessages (toolName : String) (params : List String) : LogDetails :=
  { start_message := "Running " ++ toolName,
    success_message := toolName ++ " completed successfully",
    params := params }

/-- `Client.getToolExecutor(toolName, args)`: the executor with its log details,
or the error. -/
def getToolExecutor (toolName : String) (args : Args) : Except String (Executor × LogDetails) :=
  if toolName = "extract_page_content" then
    Except.ok (Executor.BrowserExtractor, getStatusMessages toolName [])
  else if toolName = "browser_navigate" then
    match args.str "url" with
    | none => Except.error "url parameter is required"
    | some url => Except.ok (Executor.BrowserNavigator, getStatusMessages toolName ["url", url])
  else if toolName = "browser_execute_js" then
    match args.str "script" with
    | none => Except.error "script parameter is required"
    | some script =>
      Except.ok (Executor.BrowserJavaScriptExecutor, getStatusMessages toolName ["script", script])
  else if toolName = "browser_click" then
    match args.str "selector" with
    | none => Except.error "selector parameter is required"
    | some selector =>
      Except.ok (Executor.BrowserClicker, getStatusMessages toolName ["selector", selector])
  else if toolName = "http_request" then
    let method := (args.str "method").getD ""
    let url := (args.str "url").getD ""
    Except.ok (Executor.HTTPRequest, getStatusMessages toolName ["method", method, "url", url])
  else Except.error ("unknown tool: " ++ toolName)

/-- Observable actions of a run: a completion request with the parameters
submitted, and an invocation of a tool's `Execute`. -/
inductive Event where
  | request (params : ChatCompletionNewParams)
  | exec (executor : Executor) (args : Args)
  deriving DecidableEq, Repr

/-- The state of a run of `Client.Execute`: the request parameters `params`
(whose `Messages` is the conversation), the world, and the actions so far. -/
structure Run (σ : Type) where
  params : ChatCompletionNewParams
  world : σ
  trace : List Event
  deriving DecidableEq, Repr

/-- Append a message to `params.Messages.Value`. -/
def Run.append {σ : Type} (st : Run σ) (m : Message) : Run σ :=
  { st with params := { st.params with Messages := st.params.Messages ++ [m] } }

/-- `Client.ProcessToolCall(toolCall, &params)`: the returned error (`ok` for
`nil`) and the state afterwards. -/
def ProcessToolCall {σ : Type} (env : Env σ) (toolCall : ToolCall) (st : Run σ) :
    Res Unit × Run σ :=
  match env.unmarshal toolCall.Arguments with
  | Except.error e => (Res.err ("error parsing arguments: " ++ e), st)
  | Except.ok args =>
    match getToolExecutor toolCall.Name args with
    | Except.error e => (Res.err e, st)
    | Except.ok (executor, _) =>
      let st1 : Run σ := { st with trace := st.trace ++ [Event.exec executor args] }
      match executor.Execute env args st.world with
      | (Res.panic p, w) => (Res.panic p, { st1 with world := w })
      | (Res.err e, w) => (Res.err ("error executing tool: " ++ e), { st1 with world := w })
      | (Res.ok content, w) =>
        (Res.ok (), ({ st1 with world := w } : Run σ).append (Message.tool toolCall.ID content))

/-- The loop `for _, toolCall := range toolCalls` of `Client.Execute`: it stops
at the first call whose processing returns an error. -/
def processToolCalls {σ : Type} (env : Env σ) : List ToolCall → Run σ → Res Unit × Run σ
  | [], st => (Res.ok (), st)
  | toolCall :: rest, st =>
    match ProcessToolCall env toolCall st with
    | (Res.ok (), st1) => processToolCalls env rest st1
    | (Res.err e, st1) => (Res.err e, st1)
    | (Res.panic p, st1) => (Res.panic p, st1)

/-- How a call of `Client.Execute` ends: it returns `(result, err)` or the
process panics. -/
inductive Outcome where
  | ret (result : String) (err : Option String)
  | panic (p : Panic)
  deriving DecidableEq, Repr

/-- The result of one pass through the body of the iteration loop. -/
inductive Step (σ : Type) where
  | next (st : Run σ)
  | halt (o : Outcome) (st : Run σ)

/-- The state right after the completion request `Chat.Completions.New(ctx,
params)` has come back, the world having become `w`. -/
def Run.requested {σ : Type} (st : Run σ) (w : σ) : Run σ :=
  { st with world := w, trace := st.trace ++ [Event.request st.params] }

/-- The body of the loop `for i := range maxIterations` of `Client.Execute`. -/
def iteration {σ : Type} (env : Env σ) (st : Run σ) : Step σ :=
  match env.complete st.params st.world with
  | (Except.error e, w) =>
    Step.halt (Outcome.ret "" (some ("OpenAI API error: " ++ e))) (st.requested w)
  | (Except.ok completion, w) =>
    match completion.Choices with
    | [] => Step.halt (Outcome.panic Panic.indexOutOfRange) (st.requested w)
    | choice :: _ =>
      if choice.Message.ToolCalls.length = 0 then
        Step.halt (Outcome.ret choice.Message.Content none) (st.requested w)
      else
        match processToolCalls env choice.Message.ToolCalls
          ((st.requested w).append (Message.completion choice.Message)) with
        | (Res.ok (), st3) => Step.next st3
        | (Res.err e, st3) => Step.halt (Outcome.ret "" (some e)) st3
        | (Res.panic p, st3) => Step.halt (Outcome.panic p) st3

/-- The iteration loop of `Client.Execute` with `n` iterations left, and the
return after it. -/
def executeLoop {σ : Type} (env : Env σ) : Nat → Run σ → Outcome × Run σ
  | 0, st => (Outcome.ret "" (some "reached maximum iterations without resolution"), st)
  | n + 1, st =>
    match iteration env st with
    | Step.next st1 => executeLoop env n st1
    | Step.halt o st1 => (o, st1)

/-- The tool catalogue `tools` built by `Client.Execute` from `availableTools`
(`schemaToFunctionParameters` re-encodes the schema unchanged). -/
def tools : List ChatCompletionToolParam :=
  availableTools.map fun tool =>
    { Name := tool.Name, Description := tool.Description, Parameters := tool.Schema }

/-- The state in which `Client.Execute` enters its loop: the request parameters
carry the truncated buffer and the catalogue, nothing has happened yet. -/
def Run.init {σ : Type} (messages : List Message) (w : σ) : Run σ :=
  { params := { Messages := messages, Tools := tools }, world := w, trace := [] }

/-- `Client.Execute(buffer, maxIterations)`: `range maxIterations` runs the body
`maxIterations` times, not at all when it is zero or negative. If
`buffer.Truncate()` panics, nothing has been requested. -/
def Execute {σ : Type} (env : Env σ) (est : Estimator) (buffer : Buffer) (maxIterations : Int)
    (w : σ) : Outcome × Run σ :=
  match buffer.Truncate est with
  | Except.error p => (Outcome.panic p, Run.init buffer.Messages w)
  | Except.ok truncated => executeLoop env maxIterations.toNat (Run.init truncated.Messages w)

/-- The state after `k` passes through the loop body that all went on to the
next iteration, if the run gets that far. -/
def runIters {σ : Type} (env : Env σ) : Nat → Run σ → Option (Run σ)
  | 0, st => some st
  | k + 1, st =>
    match iteration env st with
    | Step.next st1 => runIters env k st1
    | Step.halt _ _ => none

/-- An estimator for worked examples: four tokens per message plus one per
character of the text and of the role. -/
def sampleEstimator : Estimator := fun role msg => 4 + msg.length + role.length

/-- The estimator of the worked example of the specification: each seed costs
25 tokens (50 together), every other message 80. -/
def scenarioEstimator : Estimator :=
  fun role _ => if role = "system" ∨ role = "user" then 25 else 80

/-- The buffer of the worked example: the two seeds followed by ten assistant
messages, added through `Buffer.Add`, with the given `maxTokens`. -/
def scenarioBuffer (maxTokens : Int) : Buffer :=
  { Messages :=
      (["m1", "m2", "m3", "m4", "m5", "m6", "m7", "m8", "m9", "m10"].foldl
        (fun b c => b.Add "assistant" c) (NewBuffer "sys" "task")).Messages,
    maxTokens := maxTokens }

/-- The parameters of the completion requests among the actions, in order. -/
def requestsOf : List Event → List ChatCompletionNewParams
  | [] => []
  | Event.request params :: rest => params :: requestsOf rest
  | Event.exec _ _ :: rest => requestsOf rest

/-- The tool executions among the actions, in order. -/
def execsOf : List Event → List (Executor × Args)
  | [] => []
  | Event.request _ :: rest => execsOf rest
  | Event.exec executor args :: rest => (executor, args) :: execsOf rest

/-- Specification side of tool dispatch: the contents returned by resolving and
executing the calls one after the other, and the world afterwards, when every
call decodes, resolves and executes successfully. -/
def toolResults {σ : Type} (env : Env σ) : List ToolCall → σ → Option (List String × σ)
  | [], w => some ([], w)
  | toolCall :: rest, w =>
    match env.unmarshal toolCall.Arguments with
    | Except.error _ => none
    | Except.ok args =>
      match getToolExecutor toolCall.Name args with
      | Except.error _ => none
      | Except.ok (executor, _) =>
        match executor.Execute env args w with
        | (Res.ok content, w1) =>
          match toolResults env rest w1 with
          | some (contents, w2) => some (content :: contents, w2)
          | none => none
        | _ => none

/-! ## Worked examples: a scripted environment -/

/-- A decoder for the argument texts of the examples: the empty object, an
object with a `url`, an object with a `selector`; anything else is rejected. -/
def sampleUnmarshal (text : String) : Except String Args :=
  if text = "\x7b\x7d" then Except.ok []
  else if text = "\x7b\"url\":\"https://example.org\"\x7d" then
    Except.ok [("url", JSONValue.str "https://example.org")]
  else if text = "\x7b\"selector\":\"#missing\"\x7d" then
    Except.ok [("selector", JSONValue.str "#missing")]
  else Except.error "invalid character"

/-- An environment for the examples. The world counts the completion requests
made so far; the endpoint answers the `n`-th request with the `n`-th entry of a
script and with `fallback` after the script ends. Navigation, clicks and
scripts succeed, extraction fails for the selector `#missing`, and HTTP
requests are answered `200 ok`. -/
def scriptedEnv (script : List (Except String ChatCompletion))
    (fallback : Except String ChatCompletion) : Env Nat :=
  { complete := fun _ n => (script.getD n fallback, n + 1),
    unmarshal := sampleUnmarshal,
    extract := fun selector n =>
      if selector = "#missing" then (ExtractOutcome.htmlError "node is detached", n)
      else (ExtractOutcome.markdown ("content of " ++ selector), n),
    navigate := fun _ n => some n,
    evalJS := fun _ n => some ("undefined", n),
    click := fun _ n => some n,
    http := fun _ _ _ n => (HTTPOutcome.response 200 "ok", n) }

/-- A response with one choice. -/
def respond (content : String) (toolCalls : List ToolCall) : Except String ChatCompletion :=
  Except.ok { Choices := [{ Message := { Content := content, ToolCalls := toolCalls } }] }

/-- The two tool calls of the example scenario: `"a"` navigates, `"b"` extracts
the page. -/
def callA : ToolCall :=
  { ID := "a", Name := "browser_navigate",
    Arguments := "\x7b\"url\":\"https://example.org\"\x7d" }

/-- See `callA`. -/
def callB : ToolCall :=
  { ID := "b", Name := "extract_page_content", Arguments := "\x7b\x7d" }

/-- A call whose execution fails: extraction with the selector `#missing`. -/
def callFailing : ToolCall :=
  { ID := "x", Name := "extract_page_content",
    Arguments := "\x7b\"selector\":\"#missing\"\x7d" }

/-- A call of `http_request` with the empty argument object: the `url` its
schema requires is missing. -/
def callHTTPNoURL : ToolCall :=
  { ID := "h", Name := "http_request", Arguments := "\x7b\x7d" }

/-- A call of `browser_navigate` with the empty argument object: the `url` its
schema requires is missing. -/
def callNavigateNoURL : ToolCall :=
  { ID := "n", Name := "browser_navigate", Arguments := "\x7b\x7d" }

/-- An estimator for which tool results are expensive: 200000 tokens for a
tool-result message, 4 for any other. -/
def toolHeavyEstimator : Estimator :=
  fun role _ => if role = "tool" then 200000 else 4

/-- The ids of the tool calls requested by the assistant response messages of a
message list. -/
def requestedIDs : List Message → List String
  | [] => []
  | Message.completion msg :: rest => msg.ToolCalls.map ToolCall.ID ++ requestedIDs rest
  | _ :: rest => requestedIDs rest

/-- The invariant of the data model on a message list: every tool-result
message carries the id of a tool call requested by an assistant response
message that occurs earlier in the list. `seen` holds the ids requested before
the list starts. -/
def toolResultsReferenced (seen : List String) : List Message → Bool
  | [] => true
  | Message.tool toolCallID _ :: rest =>
    decide (toolCallID ∈ seen) && toolResultsReferenced seen rest
  | Message.completion msg :: rest =>
    toolResultsReferenced (seen ++ msg.ToolCalls.map ToolCall.ID) rest
  | _ :: rest => toolResultsReferenced seen rest

/-! ## Truncation: lemmas -/

theorem truncateLoop_seeds_cases (est : Estimator) (maxTokens : Int) (m0 m1 : Message)
    (ms : List Message) (total : Int) (r : List Message)
    (h : truncateLoop est maxTokens ms total [m0, m1] = Except.ok r) :
    r = [m0, m1] ∨
      ∃ m older, ms = m :: older ∧ r = [m] ∧ total + msgTokens est m ≤ maxTokens := by
  cases ms with
  | nil =>
    simp [truncateLoop] at h
    exact Or.inl h.symm
  | cons msg older =>
    simp only [truncateLoop] at h
    by_cases hfit : total + msgTokens est msg ≤ maxTokens
    · rw [if_pos hfit] at h
      simp only [sliceFrom2, List.length_cons, List.length_nil, List.drop] at h
      cases older with
      | nil =>
        simp [truncateLoop] at h
        exact Or.inr ⟨msg, [], rfl, h.symm, hfit⟩
      | cons msg2 older2 =>
        simp only [truncateLoop] at h
        by_cases hfit2 : total + msgTokens est msg + msgTokens est msg2 ≤ maxTokens
        · simp [hfit2, sliceFrom2] at h
        · simp [hfit2] at h
          exact Or.inr ⟨msg, msg2 :: older2, rfl, h.symm, hfit⟩
    · rw [if_neg hfit] at h
      simp at h
      exact Or.inl h.symm

/-- The possible results of `Truncate`: the buffer itself when it is shorter
than two messages, otherwise the two seeds alone or the last message alone. -/
theorem Truncate_ok_cases (est : Estimator) (b b1 : Buffer)
    (h : b.Truncate est = Except.ok b1) :
    (b.Messages.length < 2 ∧ b1 = b) ∨
      ∃ c0 c1 rest, b.Messages = Message.system c0 :: Message.user c1 :: rest ∧
        (b1 = { b with Messages := [Message.system c0, Message.user c1] } ∨
          ∃ m, m ∈ rest ∧ b1 = { b with Messages := [m] } ∧
            (est "system" c0 : Int) + (est "user" c1 : Int) + msgTokens est m
              ≤ b.maxTokens - 500) := by
  unfold Buffer.Truncate at h
  split at h
  · rename_i hm
    left
    simp only [Except.ok.injEq] at h
    exact ⟨by simp [hm], h.symm⟩
  · rename_i hm
    left
    simp only [Except.ok.injEq] at h
    exact ⟨by simp [hm], h.symm⟩
  · rename_i m0 m1 rest hm
    right
    cases m0 <;> try (simp at h)
    rename_i c0
    cases m1 <;> try (simp at h)
    rename_i c1
    refine ⟨c0, c1, rest, hm, ?_⟩
    split at h
    · simp at h
    · rename_i r hr
      simp only [Except.ok.injEq] at h
      rcases truncateLoop_seeds_cases est _ _ _ _ _ _ hr with hseed | ⟨m, older, hms, hr1, hfit⟩
      · left
        rw [← h, hseed]
      · right
        refine ⟨m, ?_, ?_, ?_⟩
        · have : m ∈ rest.reverse := by rw [hms]; simp
          simpa using this
        · rw [← h, hr1]
        · simpa using hfit

theorem msgTokens_nonneg (est : Estimator) (m : Message) : 0 ≤ msgTokens est m := by
  cases m <;> simp [msgTokens]

/-! ## Truncation: claims -/

/-- C1 (evaluation at the failing input). The buffer built by `NewBuffer "s" "u"`
and one `Add "assistant" "a"` has three messages, its two seeds cost far less
than the budget `128000 - 500`, and yet `Truncate` returns the single message
`assistant "a"`: the seeds the doc comment promises to keep are gone. -/
theorem Truncate_drops_seeds :
    ((NewBuffer "s" "u").Add "assistant" "a").Messages
        = [Message.system "s", Message.user "u", Message.assistant "a"] ∧
      tokensOf sampleEstimator [Message.system "s", Message.user "u"] ≤ 128000 - 500 ∧
      Buffer.Truncate sampleEstimator ((NewBuffer "s" "u").Add "assistant" "a")
        = Except.ok { Messages := [Message.assistant "a"], maxTokens := 128000 } := by
  refine ⟨by decide, by decide, by decide⟩

/-- C2 (evaluation at the failing inputs). In the worked example (seeds costing
50, ten later messages costing 80 each) `Truncate` does not return the twelve
messages under budget 1000, nor the seeds plus the last three under budget 300:
in both cases the second pass through the backward walk slices a one-element
list from index 2 and the program panics. Under budget 130, which admits one
trailing message, the result is that message alone, without the seeds. -/
theorem Truncate_scenario_panics :
    (scenarioBuffer 1500).Messages.length = 12 ∧
      tokensOf scenarioEstimator (scenarioBuffer 1500).Messages = 850 ∧
      Buffer.Truncate scenarioEstimator (scenarioBuffer 1500)
        = Except.error Panic.sliceBounds ∧
      Buffer.Truncate scenarioEstimator (scenarioBuffer 800)
        = Except.error Panic.sliceBounds ∧
      Buffer.Truncate scenarioEstimator (scenarioBuffer 630)
        = Except.ok { Messages := [Message.assistant "m10"], maxTokens := 630 } := by
  refine ⟨by decide, by decide, by decide, by decide, by decide⟩

/-- C3 (counterexample). With an estimator that prices every message at 70000
tokens, the seed buffer of `NewBuffer` is returned unchanged by `Truncate`
although its cost, 140000, exceeds the budget `128000 - 500`. -/
theorem Truncate_seeds_exceed_budget :
    Buffer.Truncate (fun _ _ => 70000) (NewBuffer "s" "u") = Except.ok (NewBuffer "s" "u") ∧
      ¬ tokensOf (fun _ _ => 70000) (NewBuffer "s" "u").Messages
          ≤ (NewBuffer "s" "u").maxTokens - 500 := by
  refine ⟨by decide, by decide⟩

/-- If the first two messages of the buffer (all of it when it is shorter) cost
at most the budget, so does whatever `Truncate` returns. -/
theorem Truncate_cost_le (est : Estimator) (b b1 : Buffer)
    (h : b.Truncate est = Except.ok b1)
    (hseeds : tokensOf est (b.Messages.take 2) ≤ b.maxTokens - 500) :
    tokensOf est b1.Messages ≤ b.maxTokens - 500 := by
  rcases Truncate_ok_cases est b b1 h with ⟨hlen, hb⟩ | ⟨c0, c1, rest, hm, hcase⟩
  · subst hb
    rwa [List.take_of_length_le (by omega)] at hseeds
  · rw [hm] at hseeds
    rcases hcase with hb | ⟨m, _, hb, hfit⟩
    · subst hb
      simpa using hseeds
    · subst hb
      have h0 : (0 : Int) ≤ (est "system" c0 : Int) := Int.ofNat_nonneg _
      have h1 : (0 : Int) ≤ (est "user" c1 : Int) := Int.ofNat_nonneg _
      simp only [tokensOf, List.map_cons, List.map_nil, List.sum_cons, List.sum_nil]
      omega

/-- C3 (amended). If the messages `Truncate` keeps whatever the budget (the
first two, or the whole buffer when it has fewer than two) cost at most the
budget `maxTokens - 500`, then the messages `Truncate` returns cost at most the
budget. -/
theorem Truncate_within_budget (est : Estimator) (b b1 : Buffer)
    (h : b.Truncate est = Except.ok b1)
    (hseeds : tokensOf est (b.Messages.take 2) ≤ b.maxTokens - 500) :
    tokensOf est b1.Messages ≤ b.maxTokens - 500 :=
  Truncate_cost_le est b b1 h hseeds

/-- Witness for `Truncate_within_budget`: the seeds and one later message under
`maxTokens = 535`, budget 35; the walk admits the last message (cost 14 on top
of the seeds' 20) and the result, that message alone, costs 14. -/
theorem Truncate_within_budget_witness :
    Buffer.Truncate sampleEstimator
          { Messages := [Message.system "s", Message.user "u", Message.assistant "a"],
            maxTokens := 535 }
        = Except.ok { Messages := [Message.assistant "a"], maxTokens := 535 } ∧
      tokensOf sampleEstimator [Message.system "s", Message.user "u"] ≤ (535 : Int) - 500 ∧
      tokensOf sampleEstimator [Message.assistant "a"] ≤ (535 : Int) - 500 :=
  ⟨by decide, by decide,
    Truncate_within_budget sampleEstimator
      { Messages := [Message.system "s", Message.user "u", Message.assistant "a"],
        maxTokens := 535 }
      { Messages := [Message.assistant "a"], maxTokens := 535 } (by decide) (by decide)⟩

/-- C4. `Truncate` is idempotent: whenever it returns a buffer, truncating that
buffer again (same `maxTokens`, same estimator) returns it unchanged. -/
theorem Truncate_idempotent (est : Estimator) (b b1 : Buffer)
    (h : b.Truncate est = Except.ok b1) :
    b1.Truncate est = Except.ok b1 := by
  rcases Truncate_ok_cases est b b1 h with ⟨hlen, hb⟩ | ⟨c0, c1, rest, hm, hcase⟩
  · subst hb
    exact h
  · rcases hcase with hb | ⟨m, _, hb, _⟩
    · subst hb
      simp [Buffer.Truncate, truncateLoop]
    · subst hb
      simp [Buffer.Truncate]

/-- Witness for `Truncate_idempotent`: the three-message buffer on which the
first truncation returns the last message alone. -/
theorem Truncate_idempotent_witness :
    Buffer.Truncate sampleEstimator ((NewBuffer "s" "u").Add "assistant" "a")
        = Except.ok { Messages := [Message.assistant "a"], maxTokens := 128000 } ∧
      Buffer.Truncate sampleEstimator
          { Messages := [Message.assistant "a"], maxTokens := 128000 }
        = Except.ok { Messages := [Message.assistant "a"], maxTokens := 128000 } :=
  ⟨by decide,
    Truncate_idempotent sampleEstimator ((NewBuffer "s" "u").Add "assistant" "a")
      { Messages := [Message.assistant "a"], maxTokens := 128000 } (by decide)⟩

/-! ## The loop of `Client.Execute`: lemmas -/

theorem requestsOf_append (a b : List Event) :
    requestsOf (a ++ b) = requestsOf a ++ requestsOf b := by
  induction a with
  | nil => rfl
  | cons e rest ih => cases e <;> simp [requestsOf, ih]

theorem execsOf_append (a b : List Event) :
    execsOf (a ++ b) = execsOf a ++ execsOf b := by
  induction a with
  | nil => rfl
  | cons e rest ih => cases e <;> simp [execsOf, ih]

/-- Processing a tool call issues no completion request, leaves the catalogue
alone and only appends to the conversation. -/
theorem ProcessToolCall_keeps {σ : Type} (env : Env σ) (toolCall : ToolCall) (st : Run σ) :
    (ProcessToolCall env toolCall st).2.params.Tools = st.params.Tools ∧
      (∃ added, (ProcessToolCall env toolCall st).2.params.Messages
          = st.params.Messages ++ added) ∧
      requestsOf (ProcessToolCall env toolCall st).2.trace = requestsOf st.trace := by
  unfold ProcessToolCall
  split
  · exact ⟨rfl, ⟨[], by simp⟩, rfl⟩
  · split
    · exact ⟨rfl, ⟨[], by simp⟩, rfl⟩
    · split
      · exact ⟨rfl, ⟨[], by simp⟩, by simp [requestsOf_append, requestsOf]⟩
      · exact ⟨rfl, ⟨[], by simp⟩, by simp [requestsOf_append, requestsOf]⟩
      · rename_i content w _
        exact ⟨rfl, ⟨[Message.tool toolCall.ID content], rfl⟩,
          by simp [Run.append, requestsOf_append, requestsOf]⟩

theorem processToolCalls_keeps {σ : Type} (env : Env σ) (calls : List ToolCall) :
    ∀ st : Run σ,
      (processToolCalls env calls st).2.params.Tools = st.params.Tools ∧
        (∃ added, (processToolCalls env calls st).2.params.Messages
            = st.params.Messages ++ added) ∧
        requestsOf (processToolCalls env calls st).2.trace = requestsOf st.trace := by
  induction calls with
  | nil => intro st; exact ⟨rfl, ⟨[], by simp [processToolCalls]⟩, rfl⟩
  | cons toolCall rest ih =>
    intro st
    obtain ⟨hT, ⟨added, hM⟩, hR⟩ := ProcessToolCall_keeps env toolCall st
    unfold processToolCalls
    split
    · rename_i st1 heq
      rw [heq] at hT hM hR
      obtain ⟨hT1, ⟨added1, hM1⟩, hR1⟩ := ih st1
      refine ⟨hT1.trans hT, ⟨added ++ added1, ?_⟩, hR1.trans hR⟩
      rw [hM1, hM, List.append_assoc]
    · rename_i e st1 heq
      rw [heq] at hT hM hR
      exact ⟨hT, ⟨added, hM⟩, hR⟩
    · rename_i p st1 heq
      rw [heq] at hT hM hR
      exact ⟨hT, ⟨added, hM⟩, hR⟩

theorem iteration_of_error {σ : Type} (env : Env σ) (st : Run σ) (e : String) (w : σ)
    (hc : env.complete st.params st.world = (Except.error e, w)) :
    iteration env st
      = Step.halt (Outcome.ret "" (some ("OpenAI API error: " ++ e))) (st.requested w) := by
  simp only [iteration, hc]

theorem iteration_of_noChoice {σ : Type} (env : Env σ) (st : Run σ)
    (completion : ChatCompletion) (w : σ)
    (hc : env.complete st.params st.world = (Except.ok completion, w))
    (hch : completion.Choices = []) :
    iteration env st = Step.halt (Outcome.panic Panic.indexOutOfRange) (st.requested w) := by
  simp only [iteration, hc, hch]

theorem iteration_of_final {σ : Type} (env : Env σ) (st : Run σ)
    (completion : ChatCompletion) (w : σ) (choice : ChatCompletionChoice)
    (others : List ChatCompletionChoice)
    (hc : env.complete st.params st.world = (Except.ok completion, w))
    (hch : completion.Choices = choice :: others)
    (ht : choice.Message.ToolCalls = []) :
    iteration env st
      = Step.halt (Outcome.ret choice.Message.Content none) (st.requested w) := by
  simp [iteration, hc, hch, ht]

theorem iteration_of_calls {σ : Type} (env : Env σ) (st : Run σ)
    (completion : ChatCompletion) (w : σ) (choice : ChatCompletionChoice)
    (others : List ChatCompletionChoice)
    (hc : env.complete st.params st.world = (Except.ok completion, w))
    (hch : completion.Choices = choice :: others)
    (ht : choice.Message.ToolCalls ≠ []) :
    iteration env st
      = match processToolCalls env choice.Message.ToolCalls
          ((st.requested w).append (Message.completion choice.Message)) with
        | (Res.ok (), st3) => Step.next st3
        | (Res.err e, st3) => Step.halt (Outcome.ret "" (some e)) st3
        | (Res.panic p, st3) => Step.halt (Outcome.panic p) st3 := by
  have hlen : ¬ choice.Message.ToolCalls.length = 0 := by
    intro h0
    exact ht (List.length_eq_zero.mp h0)
  simp only [iteration, hc, hch, hlen, if_false]

/-- Whatever the endpoint and the tools do, a pass through the loop body issues
exactly one request, with the parameters it started from; when it goes on to
the next iteration it has kept the catalogue and made the conversation
strictly longer. -/
theorem iteration_effect {σ : Type} (env : Env σ) (st : Run σ) :
    (∃ o st1, iteration env st = Step.halt o st1 ∧
        requestsOf st1.trace = requestsOf st.trace ++ [st.params]) ∨
      (∃ st1, iteration env st = Step.next st1 ∧
        st1.params.Tools = st.params.Tools ∧
        (∃ added, added ≠ [] ∧ st1.params.Messages = st.params.Messages ++ added) ∧
        requestsOf st1.trace = requestsOf st.trace ++ [st.params]) := by
  have hreq : ∀ w, requestsOf (st.requested w).trace = requestsOf st.trace ++ [st.params] := by
    intro w
    simp [Run.requested, requestsOf_append, requestsOf]
  rcases hc : env.complete st.params st.world with ⟨r, w⟩
  cases r with
  | error e => exact Or.inl ⟨_, _, iteration_of_error env st e w hc, hreq w⟩
  | ok completion =>
    cases hch : completion.Choices with
    | nil => exact Or.inl ⟨_, _, iteration_of_noChoice env st completion w hc hch, hreq w⟩
    | cons choice others =>
      by_cases ht : choice.Message.ToolCalls = []
      · exact Or.inl
          ⟨_, _, iteration_of_final env st completion w choice others hc hch ht, hreq w⟩
      · have hit := iteration_of_calls env st completion w choice others hc hch ht
        obtain ⟨hT, ⟨added, hM⟩, hR⟩ := processToolCalls_keeps env choice.Message.ToolCalls
          ((st.requested w).append (Message.completion choice.Message))
        have hR1 : requestsOf ((st.requested w).append (Message.completion choice.Message)).trace
            = requestsOf st.trace ++ [st.params] := hreq w
        rw [hR1] at hR
        rcases hp : processToolCalls env choice.Message.ToolCalls
          ((st.requested w).append (Message.completion choice.Message)) with ⟨r, st3⟩
        rw [hp] at hit hT hM hR
        cases r with
        | ok u =>
          refine Or.inr
            ⟨st3, hit, hT, ⟨Message.completion choice.Message :: added, by simp, ?_⟩, hR⟩
          rw [hM]
          simp [Run.append, Run.requested]
        | err e => exact Or.inl ⟨_, _, hit, hR⟩
        | panic p => exact Or.inl ⟨_, _, hit, hR⟩

theorem iteration_next {σ : Type} (env : Env σ) (st st1 : Run σ)
    (h : iteration env st = Step.next st1) :
    st1.params.Tools = st.params.Tools ∧
      (∃ added, added ≠ [] ∧ st1.params.Messages = st.params.Messages ++ added) ∧
      requestsOf st1.trace = requestsOf st.trace ++ [st.params] := by
  rcases iteration_effect env st with ⟨o, st2, h2, _⟩ | ⟨st2, h2, h3⟩
  · rw [h] at h2; simp at h2
  · rw [h] at h2
    simp only [Step.next.injEq] at h2
    subst h2
    exact h3

theorem iteration_halt {σ : Type} (env : Env σ) (st st1 : Run σ) (o : Outcome)
    (h : iteration env st = Step.halt o st1) :
    requestsOf st1.trace = requestsOf st.trace ++ [st.params] := by
  rcases iteration_effect env st with ⟨o2, st2, h2, h3⟩ | ⟨st2, h2, _⟩
  · rw [h] at h2
    simp only [Step.halt.injEq] at h2
    rw [h2.2]
    exact h3
  · rw [h] at h2; simp at h2

/-- The requests issued by the loop with `n` iterations left: at most `n`, the
first with the current parameters, each later one with a strictly longer
conversation that extends the previous one. -/
theorem executeLoop_requests {σ : Type} (env : Env σ) :
    ∀ (n : Nat) (st : Run σ), ∃ later,
      requestsOf (executeLoop env n st).2.trace = requestsOf st.trace ++ later ∧
        later.length ≤ n ∧
        (0 < n → ∃ rest, later = st.params :: rest) ∧
        List.Chain' (fun p q : ChatCompletionNewParams =>
          ∃ added, added ≠ [] ∧ q.Messages = p.Messages ++ added) later ∧
        (∀ p ∈ later, ∃ added, p.Messages = st.params.Messages ++ added) := by
  intro n
  induction n with
  | zero => intro st; exact ⟨[], by simp [executeLoop], by simp, by simp, by simp, by simp⟩
  | succ n ih =>
    intro st
    unfold executeLoop
    split
    · rename_i st1 heq
      obtain ⟨_, ⟨added, hne, hM⟩, hR⟩ := iteration_next env st st1 heq
      obtain ⟨later, h1, h2, h3, h4, h5⟩ := ih st1
      refine ⟨st.params :: later, ?_, by simp; omega, fun _ => ⟨later, rfl⟩, ?_, ?_⟩
      · rw [h1, hR]; simp
      · cases later with
        | nil => simp
        | cons q rest =>
          refine List.Chain'.cons ?_ h4
          obtain ⟨added1, h6⟩ := h5 q (by simp)
          have hn : 0 < n := by
            cases n with
            | zero => simp at h2
            | succ k => omega
          obtain ⟨rest1, hrest⟩ := h3 hn
          simp only [List.cons.injEq] at hrest
          refine ⟨added, hne, ?_⟩
          rw [hrest.1, hM]
      · intro p hp
        simp only [List.mem_cons] at hp
        rcases hp with hp | hp
        · exact ⟨[], by simp [hp]⟩
        · obtain ⟨added1, h6⟩ := h5 p hp
          exact ⟨added ++ added1, by rw [h6, hM, List.append_assoc]⟩
    · rename_i o st1 heq
      have hR := iteration_halt env st st1 o heq
      exact ⟨[st.params], hR, by simp, fun _ => ⟨[], rfl⟩, by simp, by
        intro p hp
        simp only [List.mem_singleton] at hp
        exact ⟨[], by simp [hp]⟩⟩

theorem processToolCalls_all_ok {σ : Type} (env : Env σ) (calls : List ToolCall)
    (hok : ∀ toolCall ∈ calls, ∀ st : Run σ,
      (ProcessToolCall env toolCall st).1 = Res.ok ()) :
    ∀ st : Run σ, (processToolCalls env calls st).1 = Res.ok () := by
  induction calls with
  | nil => intro st; rfl
  | cons toolCall rest ih =>
    intro st
    have h1 := hok toolCall (by simp) st
    rcases hp : ProcessToolCall env toolCall st with ⟨r, st1⟩
    rw [hp] at h1
    simp only at h1
    subst h1
    simp only [processToolCalls, hp]
    exact ih (fun tc htc => hok tc (by simp [htc])) st1

theorem executeLoop_exhausts {σ : Type} (env : Env σ)
    (hnever : ∀ (params : ChatCompletionNewParams) (w0 : σ), ∃ completion w1 choice others,
      env.complete params w0 = (Except.ok completion, w1) ∧
        completion.Choices = choice :: others ∧ choice.Message.ToolCalls ≠ [] ∧
        ∀ toolCall ∈ choice.Message.ToolCalls, ∀ st : Run σ,
          (ProcessToolCall env toolCall st).1 = Res.ok ()) :
    ∀ (n : Nat) (st : Run σ),
      (executeLoop env n st).1
          = Outcome.ret "" (some "reached maximum iterations without resolution") ∧
        (requestsOf (executeLoop env n st).2.trace).length
          = (requestsOf st.trace).length + n := by
  intro n
  induction n with
  | zero => intro st; exact ⟨rfl, rfl⟩
  | succ n ih =>
    intro st
    obtain ⟨completion, w1, choice, others, hc, hch, ht, hok⟩ := hnever st.params st.world
    have hit := iteration_of_calls env st completion w1 choice others hc hch ht
    have hall := processToolCalls_all_ok env choice.Message.ToolCalls hok
      ((st.requested w1).append (Message.completion choice.Message))
    rcases hp : processToolCalls env choice.Message.ToolCalls
      ((st.requested w1).append (Message.completion choice.Message)) with ⟨r, st3⟩
    rw [hp] at hit hall
    simp only at hall
    subst hall
    simp only at hit
    obtain ⟨_, _, hR⟩ := iteration_next env st st3 hit
    obtain ⟨h1, h2⟩ := ih st3
    simp only [executeLoop, hit]
    refine ⟨h1, ?_⟩
    rw [h2, hR]
    simp
    omega

/-- The seed buffer of `NewBuffer` is returned unchanged by `Truncate`,
whatever the estimator. -/
theorem Truncate_NewBuffer (est : Estimator) (systemPrompt userPrompt : String) :
    (NewBuffer systemPrompt userPrompt).Truncate est
      = Except.ok (NewBuffer systemPrompt userPrompt) := by
  simp [NewBuffer, Buffer.Truncate, truncateLoop]

/-! ## The loop of `Client.Execute`: the iteration cap -/

/-- C5. Whatever the completion endpoint and the tools do, `Execute` with
`maxIterations = N` issues at most `N` completion requests (none when
`N <= 0`). If moreover the initial truncation returns (as it does for the seed
buffer) and the endpoint never gives a final answer (every response requests at
least one tool call and every tool call is processed successfully), `Execute`
returns the failure `reached maximum iterations without resolution` after
exactly `N` requests. -/
theorem Execute_at_most_N_requests {σ : Type} (env : Env σ) (est : Estimator)
    (buffer : Buffer) (maxIterations : Int) (w : σ) :
    (requestsOf (Execute env est buffer maxIterations w).2.trace).length
        ≤ maxIterations.toNat ∧
      (∀ truncated, buffer.Truncate est = Except.ok truncated →
        (∀ (params : ChatCompletionNewParams) (w0 : σ), ∃ completion w1 choice others,
          env.complete params w0 = (Except.ok completion, w1) ∧
            completion.Choices = choice :: others ∧ choice.Message.ToolCalls ≠ [] ∧
            ∀ toolCall ∈ choice.Message.ToolCalls, ∀ st : Run σ,
              (ProcessToolCall env toolCall st).1 = Res.ok ()) →
        (Execute env est buffer maxIterations w).1
            = Outcome.ret "" (some "reached maximum iterations without resolution") ∧
          (requestsOf (Execute env est buffer maxIterations w).2.trace).length
            = maxIterations.toNat) := by
  constructor
  · unfold Execute
    split
    · simp [Run.init, requestsOf]
    · rename_i truncated _
      obtain ⟨later, h1, h2, _⟩ :=
        executeLoop_requests env maxIterations.toNat (Run.init truncated.Messages w)
      rw [h1]
      simpa [Run.init, requestsOf] using h2
  · intro truncated htr hnever
    obtain ⟨h1, h2⟩ :=
      executeLoop_exhausts env hnever maxIterations.toNat (Run.init truncated.Messages w)
    simp only [Execute, htr]
    refine ⟨h1, ?_⟩
    rw [h2]
    simp [Run.init, requestsOf]

/-- Witness for `Execute_at_most_N_requests`: an endpoint that asks for the
tool calls `"a"` and `"b"` on every request, with `maxIterations = 2`, from the
seed buffer. -/
theorem Execute_at_most_N_requests_witness :
    (Execute (scriptedEnv [] (respond "" [callA, callB])) sampleEstimator
          (NewBuffer "s" "u") 2 0).1
        = Outcome.ret "" (some "reached maximum iterations without resolution") ∧
      (requestsOf (Execute (scriptedEnv [] (respond "" [callA, callB])) sampleEstimator
          (NewBuffer "s" "u") 2 0).2.trace).length = (2 : Int).toNat :=
  (Execute_at_most_N_requests (scriptedEnv [] (respond "" [callA, callB])) sampleEstimator
      (NewBuffer "s" "u") 2 0).2 (NewBuffer "s" "u") (Truncate_NewBuffer _ _ _)
    (by
      intro params w0
      refine ⟨_, w0 + 1, _, [], rfl, rfl, by simp, ?_⟩
      intro toolCall hmem st
      simp only [List.mem_cons, List.mem_singleton, List.not_mem_nil, or_false] at hmem
      rcases hmem with rfl | rfl <;> rfl)

/-! ## The loop of `Client.Execute`: dispatch, fail-fast and the final answer -/

/-- If the first `i` passes through the loop body all go on, the loop with
`i + n` iterations continues as the loop with `n` iterations from the state
they lead to. -/
theorem executeLoop_runIters {σ : Type} (env : Env σ) (n : Nat) :
    ∀ (i : Nat) (st0 st : Run σ), runIters env i st0 = some st →
      executeLoop env (i + n) st0 = executeLoop env n st := by
  intro i
  induction i with
  | zero =>
    intro st0 st h
    simp only [runIters, Option.some.injEq] at h
    subst h
    simp
  | succ i ih =>
    intro st0 st h
    rw [show i + 1 + n = (i + n) + 1 by omega]
    cases hit : iteration env st0 with
    | next st1 =>
      simp only [runIters, hit] at h
      simp only [executeLoop, hit]
      exact ih st1 st h
    | halt o st1 =>
      simp [runIters, hit] at h

theorem processToolCalls_append {σ : Type} (env : Env σ) (pre rest : List ToolCall) :
    ∀ (st st2 : Run σ), processToolCalls env pre st = (Res.ok (), st2) →
      processToolCalls env (pre ++ rest) st = processToolCalls env rest st2 := by
  induction pre with
  | nil =>
    intro st st2 h
    simp only [processToolCalls, Prod.mk.injEq, true_and] at h
    subst h
    rfl
  | cons toolCall pre ih =>
    intro st st2 h
    rcases hp : ProcessToolCall env toolCall st with ⟨r, st1⟩
    cases r with
    | ok u =>
      simp only [processToolCalls, hp] at h
      simp only [List.cons_append, processToolCalls, hp]
      exact ih st1 st2 h
    | err e => simp [processToolCalls, hp] at h
    | panic p => simp [processToolCalls, hp] at h

/-- A call that decodes and resolves but whose `Execute` returns an error: the
error is wrapped, no tool result is appended. -/
theorem ProcessToolCall_of_failure {σ : Type} (env : Env σ) (toolCall : ToolCall)
    (st : Run σ) (args : Args) (executor : Executor) (details : LogDetails) (e : String)
    (w : σ)
    (hargs : env.unmarshal toolCall.Arguments = Except.ok args)
    (hres : getToolExecutor toolCall.Name args = Except.ok (executor, details))
    (hexec : executor.Execute env args st.world = (Res.err e, w)) :
    ProcessToolCall env toolCall st
      = (Res.err ("error executing tool: " ++ e),
          { st with world := w, trace := st.trace ++ [Event.exec executor args] }) := by
  simp only [ProcessToolCall, hargs, hres, hexec]

/-- A call that decodes, resolves and executes: its result is appended as a
tool message carrying the id of the call. -/
theorem ProcessToolCall_of_success {σ : Type} (env : Env σ) (toolCall : ToolCall)
    (st : Run σ) (args : Args) (executor : Executor) (details : LogDetails)
    (content : String) (w : σ)
    (hargs : env.unmarshal toolCall.Arguments = Except.ok args)
    (hres : getToolExecutor toolCall.Name args = Except.ok (executor, details))
    (hexec : executor.Execute env args st.world = (Res.ok content, w)) :
    ProcessToolCall env toolCall st
      = (Res.ok (),
          { params := { st.params with
              Messages := st.params.Messages ++ [Message.tool toolCall.ID content] },
            world := w, trace := st.trace ++ [Event.exec executor args] }) := by
  simp only [ProcessToolCall, hargs, hres, hexec, Run.append]

/-- When every call decodes, resolves and executes, the dispatch loop succeeds
and appends the results in the order of the calls. -/
theorem processToolCalls_of_toolResults {σ : Type} (env : Env σ) (calls : List ToolCall) :
    ∀ (st : Run σ) (contents : List String) (w2 : σ),
      toolResults env calls st.world = some (contents, w2) →
      contents.length = calls.length ∧
        ∃ st2, processToolCalls env calls st = (Res.ok (), st2) ∧
          st2.params.Messages = st.params.Messages
            ++ List.zipWith (fun c r => Message.tool c.ID r) calls contents ∧
          st2.params.Tools = st.params.Tools ∧ st2.world = w2 := by
  induction calls with
  | nil =>
    intro st contents w2 h
    simp only [toolResults, Option.some.injEq, Prod.mk.injEq] at h
    obtain ⟨h1, h2⟩ := h
    subst h1 h2
    exact ⟨rfl, st, rfl, by simp, rfl, rfl⟩
  | cons toolCall rest ih =>
    intro st contents w2 h
    simp only [toolResults] at h
    cases hargs : env.unmarshal toolCall.Arguments with
    | error e => simp [hargs] at h
    | ok args =>
      simp only [hargs] at h
      cases hres : getToolExecutor toolCall.Name args with
      | error e => simp [hres] at h
      | ok pair =>
        obtain ⟨executor, details⟩ := pair
        simp only [hres] at h
        rcases hexec : executor.Execute env args st.world with ⟨r, w1⟩
        cases r with
        | err e => simp [hexec] at h
        | panic p => simp [hexec] at h
        | ok content =>
          simp only [hexec] at h
          cases htl : toolResults env rest w1 with
          | none => simp [htl] at h
          | some pair2 =>
            obtain ⟨contents1, w3⟩ := pair2
            simp only [htl, Option.some.injEq, Prod.mk.injEq] at h
            obtain ⟨h1, h2⟩ := h
            subst h1 h2
            have hp := ProcessToolCall_of_success env toolCall st args executor details
              content w1 hargs hres hexec
            obtain ⟨hlen, st2, hst2, hM, hT, hW⟩ := ih
              { params := { st.params with
                  Messages := st.params.Messages ++ [Message.tool toolCall.ID content] },
                world := w1, trace := st.trace ++ [Event.exec executor args] }
              contents1 w3 htl
            refine ⟨by simp [hlen], st2, ?_, ?_, hT, hW⟩
            · simp only [processToolCalls, hp]
              exact hst2
            · rw [hM]
              simp

/-- After `i` passes through the loop body that all went on, `i` requests have
been issued. -/
theorem runIters_requests {σ : Type} (env : Env σ) :
    ∀ (i : Nat) (st0 st : Run σ), runIters env i st0 = some st →
      (requestsOf st.trace).length = (requestsOf st0.trace).length + i := by
  intro i
  induction i with
  | zero =>
    intro st0 st h
    simp only [runIters, Option.some.injEq] at h
    subst h
    rfl
  | succ i ih =>
    intro st0 st h
    cases hit : iteration env st0 with
    | next st1 =>
      simp only [runIters, hit] at h
      obtain ⟨_, _, hR⟩ := iteration_next env st0 st1 hit
      rw [ih st1 st h, hR]
      simp
      omega
    | halt o st1 => simp [runIters, hit] at h

/-- C6. Fail-fast. Suppose the run has gone through `i < maxIterations`
iterations and is in state `st`, the endpoint now requests the tool calls
`pre ++ toolCall :: post`, the calls of `pre` are processed without error, and
`toolCall` decodes and resolves but its `Execute` returns the error `e`. Then
`Execute` returns the empty result with the error `error executing tool: e`;
the failed execution is the last action of the run, so no further completion
request is issued (`i + 1` in all) and no call of `post` is executed; no tool
result is appended for the failed call. -/
theorem Execute_fail_fast {σ : Type} (env : Env σ) (est : Estimator) (buffer : Buffer)
    (maxIterations : Int) (w : σ) (truncated : Buffer) (i : Nat) (st : Run σ)
    (completion : ChatCompletion) (w1 : σ) (choice : ChatCompletionChoice)
    (others : List ChatCompletionChoice) (pre post : List ToolCall) (toolCall : ToolCall)
    (st2 : Run σ) (args : Args) (executor : Executor) (details : LogDetails) (e : String)
    (w2 : σ)
    (htr : buffer.Truncate est = Except.ok truncated)
    (hi : i < maxIterations.toNat)
    (hrun : runIters env i (Run.init truncated.Messages w) = some st)
    (hc : env.complete st.params st.world = (Except.ok completion, w1))
    (hch : completion.Choices = choice :: others)
    (hcalls : choice.Message.ToolCalls = pre ++ toolCall :: post)
    (hpre : processToolCalls env pre
      ((st.requested w1).append (Message.completion choice.Message)) = (Res.ok (), st2))
    (hargs : env.unmarshal toolCall.Arguments = Except.ok args)
    (hres : getToolExecutor toolCall.Name args = Except.ok (executor, details))
    (hexec : executor.Execute env args st2.world = (Res.err e, w2)) :
    Execute env est buffer maxIterations w
        = (Outcome.ret "" (some ("error executing tool: " ++ e)),
            { st2 with world := w2, trace := st2.trace ++ [Event.exec executor args] }) ∧
      (requestsOf (Execute env est buffer maxIterations w).2.trace).length = i + 1 ∧
      execsOf (Execute env est buffer maxIterations w).2.trace
        = execsOf st2.trace ++ [(executor, args)] := by
  have hne : choice.Message.ToolCalls ≠ [] := by rw [hcalls]; simp
  have hit := iteration_of_calls env st completion w1 choice others hc hch hne
  have hfail := ProcessToolCall_of_failure env toolCall st2 args executor details e w2
    hargs hres hexec
  have hdisp : processToolCalls env choice.Message.ToolCalls
      ((st.requested w1).append (Message.completion choice.Message))
      = (Res.err ("error executing tool: " ++ e),
          { st2 with world := w2, trace := st2.trace ++ [Event.exec executor args] }) := by
    rw [hcalls, processToolCalls_append env pre (toolCall :: post) _ st2 hpre]
    simp only [processToolCalls, hfail]
  rw [hdisp] at hit
  simp only at hit
  obtain ⟨k, hk⟩ : ∃ k, maxIterations.toNat = i + (k + 1) :=
    ⟨maxIterations.toNat - i - 1, by omega⟩
  have hexe : Execute env est buffer maxIterations w
      = (Outcome.ret "" (some ("error executing tool: " ++ e)),
          { st2 with world := w2, trace := st2.trace ++ [Event.exec executor args] }) := by
    simp only [Execute, htr, hk]
    rw [executeLoop_runIters env (k + 1) i _ st hrun]
    simp only [executeLoop, hit]
  refine ⟨hexe, ?_, ?_⟩
  · rw [hexe]
    have hR := iteration_halt env st _ _ hit
    have hcount := runIters_requests env i _ st hrun
    simp only at hR
    rw [hR]
    simp only [List.length_append, List.length_singleton, hcount]
    simp [Run.init, requestsOf]
  · rw [hexe]
    simp [execsOf_append, execsOf]

/-- Witness for `Execute_fail_fast`: on the first request the endpoint asks for
the calls `"a"`, `"x"`, `"b"`; `"a"` succeeds, the extraction `"x"` fails, and
`"b"` is never executed. -/
theorem Execute_fail_fast_witness :
    (Execute (scriptedEnv [respond "" [callA, callFailing, callB]] (respond "done" []))
          sampleEstimator (NewBuffer "s" "u") 3 0).1
        = Outcome.ret ""
            (some ("error executing tool: " ++ "error getting HTML: node is detached")) ∧
      (requestsOf (Execute
          (scriptedEnv [respond "" [callA, callFailing, callB]] (respond "done" []))
          sampleEstimator (NewBuffer "s" "u") 3 0).2.trace).length = 0 + 1 := by
  have h := Execute_fail_fast
    (scriptedEnv [respond "" [callA, callFailing, callB]] (respond "done" []))
    sampleEstimator (NewBuffer "s" "u") 3 0 (NewBuffer "s" "u") 0
    (Run.init (NewBuffer "s" "u").Messages 0)
    { Choices := [{ Message := { Content := "", ToolCalls := [callA, callFailing, callB] } }] }
    1 { Message := { Content := "", ToolCalls := [callA, callFailing, callB] } } []
    [callA] [callB] callFailing
    (processToolCalls (scriptedEnv [respond "" [callA, callFailing, callB]] (respond "done" []))
      [callA] (((Run.init (NewBuffer "s" "u").Messages 0).requested 1).append
        (Message.completion { Content := "", ToolCalls := [callA, callFailing, callB] }))).2
    [("selector", JSONValue.str "#missing")] Executor.BrowserExtractor
    (getStatusMessages "extract_page_content" []) "error getting HTML: node is detached" 1
    (Truncate_NewBuffer _ _ _) (by decide) rfl rfl rfl rfl rfl rfl rfl rfl
  exact ⟨congrArg Prod.fst h.1, h.2.1⟩

/-- C7. If the response of an iteration requests the tool calls `c1..cm` and
all of them decode, resolve and execute successfully, the `i`-th returning the
content `ri`, then the iteration goes on to the next one and the conversation
afterwards is the previous message list, then the assistant's response
message, then exactly `m` tool-result messages `tool ci.ID ri` in the order of
the calls. -/
theorem iteration_appends_results {σ : Type} (env : Env σ) (st : Run σ)
    (completion : ChatCompletion) (w1 : σ) (choice : ChatCompletionChoice)
    (others : List ChatCompletionChoice) (contents : List String) (w2 : σ)
    (hc : env.complete st.params st.world = (Except.ok completion, w1))
    (hch : completion.Choices = choice :: others)
    (ht : choice.Message.ToolCalls ≠ [])
    (hres : toolResults env choice.Message.ToolCalls w1 = some (contents, w2)) :
    contents.length = choice.Message.ToolCalls.length ∧
      ∃ st1, iteration env st = Step.next st1 ∧ st1.world = w2 ∧
        st1.params.Messages
          = st.params.Messages ++ Message.completion choice.Message ::
              List.zipWith (fun c r => Message.tool c.ID r) choice.Message.ToolCalls contents := by
  have hit := iteration_of_calls env st completion w1 choice others hc hch ht
  obtain ⟨hlen, st2, hst2, hM, _, hW⟩ := processToolCalls_of_toolResults env
    choice.Message.ToolCalls ((st.requested w1).append (Message.completion choice.Message))
    contents w2 hres
  rw [hst2] at hit
  refine ⟨hlen, st2, hit, hW, ?_⟩
  rw [hM]
  simp [Run.append, Run.requested]

/-- Witness for `iteration_appends_results`: the scenario of the specification.
The first response requests the calls with ids `"a"` and `"b"`; the result for
`"a"` is appended before the result for `"b"`. -/
theorem iteration_appends_results_witness :
    ∃ st1, iteration (scriptedEnv [respond "" [callA, callB]] (respond "done" []))
          (Run.init [Message.system "s", Message.user "u"] 0) = Step.next st1 ∧
      st1.world = 1 ∧
      st1.params.Messages
        = [Message.system "s", Message.user "u",
            Message.completion { Content := "", ToolCalls := [callA, callB] },
            Message.tool "a" "Navigated to https://example.org",
            Message.tool "b" "content of body"] :=
  (iteration_appends_results (scriptedEnv [respond "" [callA, callB]] (respond "done" []))
    (Run.init [Message.system "s", Message.user "u"] 0)
    { Choices := [{ Message := { Content := "", ToolCalls := [callA, callB] } }] } 1
    { Message := { Content := "", ToolCalls := [callA, callB] } } []
    ["Navigated to https://example.org", "content of body"] 1 rfl rfl (by decide) rfl).2

/-- C8. Suppose the run has gone through `i < maxIterations` iterations and is
in state `st`, and the response to the next request has no tool calls. Then
`Execute` returns exactly the content of that response with no error, and that
request is the last action of the run: no completion request and no tool
execution follows it, and the conversation is left as it was. -/
theorem Execute_final_answer {σ : Type} (env : Env σ) (est : Estimator) (buffer : Buffer)
    (maxIterations : Int) (w : σ) (truncated : Buffer) (i : Nat) (st : Run σ)
    (completion : ChatCompletion) (w1 : σ) (choice : ChatCompletionChoice)
    (others : List ChatCompletionChoice)
    (htr : buffer.Truncate est = Except.ok truncated)
    (hi : i < maxIterations.toNat)
    (hrun : runIters env i (Run.init truncated.Messages w) = some st)
    (hc : env.complete st.params st.world = (Except.ok completion, w1))
    (hch : completion.Choices = choice :: others)
    (ht : choice.Message.ToolCalls = []) :
    Execute env est buffer maxIterations w
        = (Outcome.ret choice.Message.Content none,
            { st with world := w1, trace := st.trace ++ [Event.request st.params] }) ∧
      (requestsOf (Execute env est buffer maxIterations w).2.trace).length = i + 1 ∧
      execsOf (Execute env est buffer maxIterations w).2.trace = execsOf st.trace := by
  have hit := iteration_of_final env st completion w1 choice others hc hch ht
  obtain ⟨k, hk⟩ : ∃ k, maxIterations.toNat = i + (k + 1) :=
    ⟨maxIterations.toNat - i - 1, by omega⟩
  have hexe : Execute env est buffer maxIterations w
      = (Outcome.ret choice.Message.Content none,
          { st with world := w1, trace := st.trace ++ [Event.request st.params] }) := by
    simp only [Execute, htr, hk]
    rw [executeLoop_runIters env (k + 1) i _ st hrun]
    simp only [executeLoop, hit, Run.requested]
  refine ⟨hexe, ?_, ?_⟩
  · rw [hexe]
    have hcount := runIters_requests env i _ st hrun
    simp only [requestsOf_append, requestsOf, List.length_append, List.length_singleton, hcount]
    simp [Run.init, requestsOf]
  · rw [hexe]
    simp [execsOf_append, execsOf]

/-- Witness for `Execute_final_answer`: the endpoint requests the calls `"a"`
and `"b"` on the first iteration and answers `done` on the second. -/
theorem Execute_final_answer_witness :
    (Execute (scriptedEnv [respond "" [callA, callB]] (respond "done" [])) sampleEstimator
          (NewBuffer "s" "u") 20 0).1 = Outcome.ret "done" none ∧
      (requestsOf (Execute (scriptedEnv [respond "" [callA, callB]] (respond "done" []))
          sampleEstimator (NewBuffer "s" "u") 20 0).2.trace).length = 1 + 1 := by
  have h := Execute_final_answer
    (scriptedEnv [respond "" [callA, callB]] (respond "done" []))
    sampleEstimator (NewBuffer "s" "u") 20 0 (NewBuffer "s" "u") 1
    (processToolCalls (scriptedEnv [respond "" [callA, callB]] (respond "done" []))
      [callA, callB] (((Run.init (NewBuffer "s" "u").Messages 0).requested 1).append
        (Message.completion { Content := "", ToolCalls := [callA, callB] }))).2
    { Choices := [{ Message := { Content := "done", ToolCalls := [] } }] } 2
    { Message := { Content := "done", ToolCalls := [] } } []
    (Truncate_NewBuffer _ _ _) (by decide) rfl rfl rfl rfl
  exact ⟨congrArg Prod.fst h.1, h.2.1⟩

/-! ## Argument validation in `getToolExecutor` -/

theorem Args.str_of_lookup_none (args : Args) (key : String) (h : args.lookup key = none) :
    args.str key = none := by
  simp [Args.str, h]

/-- C10 (amended). For `browser_navigate`, `browser_execute_js` and
`browser_click`, a call whose decoded argument map lacks the key the tool's
schema requires fails at resolution: `getToolExecutor` returns the error
`<key> parameter is required` and `ProcessToolCall` returns it with the state
unchanged, so `Execute` is not invoked and nothing is appended. For
`extract_page_content` there is no such check: a call without `selector`
resolves, `Execute` is invoked, and it behaves as with the selector `body`. -/
theorem ProcessToolCall_missing_argument {σ : Type} (env : Env σ) (toolCall : ToolCall)
    (args : Args) (st : Run σ)
    (hargs : env.unmarshal toolCall.Arguments = Except.ok args) :
    (∀ tool ∈ [NewBrowserNavigator, NewBrowserJavaScriptExecutor, NewBrowserClicker],
        toolCall.Name = tool.Name → ∀ key ∈ tool.Schema.required, args.lookup key = none →
          getToolExecutor toolCall.Name args = Except.error (key ++ " parameter is required") ∧
            ProcessToolCall env toolCall st
              = (Res.err (key ++ " parameter is required"), st)) ∧
      (toolCall.Name = NewBrowserExtractor.Name → args.lookup "selector" = none →
        getToolExecutor toolCall.Name args
            = Except.ok (Executor.BrowserExtractor,
                getStatusMessages "extract_page_content" []) ∧
          execsOf (ProcessToolCall env toolCall st).2.trace
            = execsOf st.trace ++ [(Executor.BrowserExtractor, args)] ∧
          Executor.BrowserExtractor.Execute env args st.world
            = Executor.BrowserExtractor.Execute env [("selector", JSONValue.str "body")]
                st.world) := by
  constructor
  · intro tool htool hname key hkey hmiss
    have hstr := Args.str_of_lookup_none args key hmiss
    simp only [List.mem_cons, List.mem_singleton, List.not_mem_nil, or_false] at htool
    have hget : getToolExecutor toolCall.Name args
        = Except.error (key ++ " parameter is required") := by
      rcases htool with rfl | rfl | rfl
      · simp only [ToolType.Schema, NewBrowserNavigator, Executor.Schema,
          List.mem_singleton] at hkey
        subst hkey
        rw [hname]
        simp [getToolExecutor, NewBrowserNavigator, ToolType.Name, hstr]
      · simp only [ToolType.Schema, NewBrowserJavaScriptExecutor, Executor.Schema,
          List.mem_singleton] at hkey
        subst hkey
        rw [hname]
        simp [getToolExecutor, NewBrowserJavaScriptExecutor, ToolType.Name, hstr]
      · simp only [ToolType.Schema, NewBrowserClicker, Executor.Schema,
          List.mem_singleton] at hkey
        subst hkey
        rw [hname]
        simp [getToolExecutor, NewBrowserClicker, ToolType.Name, hstr]
    refine ⟨hget, ?_⟩
    simp only [ProcessToolCall, hargs, hget]
  · intro hname hmiss
    have hstr := Args.str_of_lookup_none args "selector" hmiss
    have hget : getToolExecutor toolCall.Name args
        = Except.ok (Executor.BrowserExtractor,
            getStatusMessages "extract_page_content" []) := by
      rw [hname]
      simp [getToolExecutor, NewBrowserExtractor, ToolType.Name]
    refine ⟨hget, ?_, ?_⟩
    · simp only [ProcessToolCall, hargs, hget]
      rcases Executor.BrowserExtractor.Execute env args st.world with ⟨r, w1⟩
      cases r <;> simp [execsOf_append, execsOf, Run.append]
    · have hbody : Args.str [("selector", JSONValue.str "body")] "selector" = some "body" := by
        decide
      simp only [Executor.Execute, hstr, hbody, Option.getD]

/-- Witness for `ProcessToolCall_missing_argument`: `browser_navigate` called
with the empty argument object fails at resolution with
`url parameter is required`, the state unchanged. -/
theorem ProcessToolCall_missing_argument_witness :
    getToolExecutor callNavigateNoURL.Name [] = Except.error ("url" ++ " parameter is required") ∧
      ProcessToolCall (scriptedEnv [] (respond "done" [])) callNavigateNoURL
          (Run.init [Message.system "s", Message.user "u"] 0)
        = (Res.err ("url" ++ " parameter is required"),
            Run.init [Message.system "s", Message.user "u"] 0) :=
  (ProcessToolCall_missing_argument (scriptedEnv [] (respond "done" [])) callNavigateNoURL []
    (Run.init [Message.system "s", Message.user "u"] 0) rfl).1
    NewBrowserNavigator (by simp) rfl "url" (by decide) rfl

/-- C10 (counterexample). `extract_page_content` declares `selector` as
required and `http_request` declares `url` as required, yet for the empty
argument map `getToolExecutor` returns an executor for both and
`ProcessToolCall` invokes `Execute`: the extraction succeeds on `body`, the
HTTP tool itself rejects the call with `url is required`. -/
theorem ProcessToolCall_executes_without_required_key :
    ("selector" ∈ NewBrowserExtractor.Schema.required ∧
        List.lookup "selector" ([] : Args) = none ∧
        getToolExecutor NewBrowserExtractor.Name []
          = Except.ok (Executor.BrowserExtractor,
              getStatusMessages "extract_page_content" []) ∧
        ProcessToolCall (scriptedEnv [] (respond "done" [])) callB (Run.init [] 0)
          = (Res.ok (),
              { params := { Messages := [Message.tool "b" "content of body"], Tools := tools },
                world := 0, trace := [Event.exec Executor.BrowserExtractor []] })) ∧
      ("url" ∈ NewHTTPRequest.Schema.required ∧
        List.lookup "url" ([] : Args) = none ∧
        getToolExecutor NewHTTPRequest.Name []
          = Except.ok (Executor.HTTPRequest,
              getStatusMessages "http_request" ["method", "", "url", ""]) ∧
        ProcessToolCall (scriptedEnv [] (respond "done" [])) callHTTPNoURL (Run.init [] 0)
          = (Res.err "error executing tool: url is required",
              { params := { Messages := [], Tools := tools },
                world := 0, trace := [Event.exec Executor.HTTPRequest []] })) := by
  refine ⟨⟨by decide, rfl, by decide, by decide⟩, ?_⟩
  exact ⟨by decide, rfl, by decide, by decide⟩

/-! ## Truncation inside the run -/

/-- C9 (counterexample). From the seed buffer, the endpoint requests the calls
`"a"` and `"b"` and the run goes on to a second request. The seeds fit the
budget `128000 - 500`, but the second request submits all five messages of the
conversation, whose estimated cost exceeds the budget, whereas `Truncate` on
that conversation would have returned the two seeds. -/
theorem Execute_second_request_untruncated :
    requestsOf (Execute (scriptedEnv [respond "" [callA, callB]] (respond "done" []))
          toolHeavyEstimator (NewBuffer "s" "u") 2 0).2.trace
        = [{ Messages := [Message.system "s", Message.user "u"], Tools := tools },
            { Messages := [Message.system "s", Message.user "u",
                Message.completion { Content := "", ToolCalls := [callA, callB] },
                Message.tool "a" "Navigated to https://example.org",
                Message.tool "b" "content of body"], Tools := tools }] ∧
      tokensOf toolHeavyEstimator [Message.system "s", Message.user "u"] ≤ 128000 - 500 ∧
      ¬ tokensOf toolHeavyEstimator
          [Message.system "s", Message.user "u",
            Message.completion { Content := "", ToolCalls := [callA, callB] },
            Message.tool "a" "Navigated to https://example.org",
            Message.tool "b" "content of body"] ≤ 128000 - 500 ∧
      Buffer.Truncate toolHeavyEstimator
          { Messages := [Message.system "s", Message.user "u",
              Message.completion { Content := "", ToolCalls := [callA, callB] },
              Message.tool "a" "Navigated to https://example.org",
              Message.tool "b" "content of body"], maxTokens := 128000 }
        = Except.ok (NewBuffer "s" "u") := by
  refine ⟨by decide, by decide, by decide, by decide⟩

/-- C9 (amended). `Execute` truncates the conversation once, before the loop.
When the truncation returns `truncated`: the first completion request (there is
one when `maxIterations` is positive) submits exactly `truncated.Messages`,
whose estimated cost is at most `maxTokens - 500` whenever the first two
messages of the buffer fit; every later request submits the message list of the
previous request with further messages appended, never a truncated one. -/
theorem Execute_truncates_once {σ : Type} (env : Env σ) (est : Estimator) (buffer : Buffer)
    (maxIterations : Int) (w : σ) (truncated : Buffer)
    (htr : buffer.Truncate est = Except.ok truncated) :
    (0 < maxIterations → ∃ rest,
        requestsOf (Execute env est buffer maxIterations w).2.trace
          = { Messages := truncated.Messages, Tools := tools } :: rest) ∧
      (tokensOf est (buffer.Messages.take 2) ≤ buffer.maxTokens - 500 →
        tokensOf est truncated.Messages ≤ buffer.maxTokens - 500) ∧
      List.Chain' (fun p q : ChatCompletionNewParams =>
          ∃ added, added ≠ [] ∧ q.Messages = p.Messages ++ added)
        (requestsOf (Execute env est buffer maxIterations w).2.trace) := by
  obtain ⟨later, h1, _, h3, h4, _⟩ :=
    executeLoop_requests env maxIterations.toNat (Run.init truncated.Messages w)
  have hreq : requestsOf (Execute env est buffer maxIterations w).2.trace = later := by
    simp only [Execute, htr]
    rw [h1]
    simp [Run.init, requestsOf]
  refine ⟨?_, ?_, ?_⟩
  · intro hpos
    obtain ⟨rest, hrest⟩ := h3 (by omega)
    exact ⟨rest, by rw [hreq, hrest]; rfl⟩
  · exact Truncate_cost_le est buffer truncated htr
  · rw [hreq]
    exact h4

/-- Witness for `Execute_truncates_once`: the run of the counterexample; its
first request submits the two seeds. -/
theorem Execute_truncates_once_witness :
    ∃ rest, requestsOf (Execute (scriptedEnv [respond "" [callA, callB]] (respond "done" []))
        toolHeavyEstimator (NewBuffer "s" "u") 2 0).2.trace
      = { Messages := [Message.system "s", Message.user "u"], Tools := tools } :: rest :=
  (Execute_truncates_once (scriptedEnv [respond "" [callA, callB]] (respond "done" []))
    toolHeavyEstimator (NewBuffer "s" "u") 2 0 (NewBuffer "s" "u")
    (Truncate_NewBuffer _ _ _)).1 (by decide)

/-! ## The tool catalogue and unknown tools -/

/-- The names advertised to the completion endpoint. -/
theorem tools_names :
    tools.map ChatCompletionToolParam.Name
      = ["extract_page_content", "browser_navigate", "browser_execute_js", "browser_click",
          "http_request"] := by
  decide

/-- C11. For every tool name and argument map, `getToolExecutor` returns the
failure `unknown tool: <name>` exactly when the name is not the `Name()` of a
tool of the catalogue `tools` that `Execute` submits with each request; and the
five advertised names are pairwise distinct. -/
theorem getToolExecutor_unknown_iff (toolName : String) (args : Args) :
    (getToolExecutor toolName args = Except.error ("unknown tool: " ++ toolName) ↔
        toolName ∉ tools.map ChatCompletionToolParam.Name) ∧
      (tools.map ChatCompletionToolParam.Name).Nodup ∧
      (tools.map ChatCompletionToolParam.Name).length = 5 := by
  refine ⟨?_, by decide, by decide⟩
  rw [tools_names]
  constructor
  · intro h hmem
    simp only [List.mem_cons, List.mem_singleton, List.not_mem_nil, or_false] at hmem
    rcases hmem with rfl | rfl | rfl | rfl | rfl
    · simp [getToolExecutor] at h
    · cases hs : args.str "url" <;> simp [getToolExecutor, hs] at h
    · cases hs : args.str "script" <;> simp [getToolExecutor, hs] at h
    · cases hs : args.str "selector" <;> simp [getToolExecutor, hs] at h
    · simp [getToolExecutor] at h
  · intro hmem
    simp only [List.mem_cons, List.mem_singleton, List.not_mem_nil, or_false, not_or] at hmem
    obtain ⟨h1, h2, h3, h4, h5⟩ := hmem
    simp [getToolExecutor, h1, h2, h3, h4, h5]

/-! ## Tool results and endpoint errors -/

/-- C12 (counterexample). The call `"x"` is handed to `ProcessToolCall` and its
extraction fails: the error is returned, the conversation is exactly what it
was, and no tool-result message for `"x"` has been appended. -/
theorem ProcessToolCall_failure_appends_nothing :
    ProcessToolCall (scriptedEnv [] (respond "done" [])) callFailing
        (Run.init [Message.system "s", Message.user "u",
          Message.completion { Content := "", ToolCalls := [callFailing] }] 0)
      = (Res.err "error executing tool: error getting HTML: node is detached",
          { params := { Messages := [Message.system "s", Message.user "u",
              Message.completion { Content := "", ToolCalls := [callFailing] }], Tools := tools },
            world := 0,
            trace := [Event.exec Executor.BrowserExtractor
              [("selector", JSONValue.str "#missing")]] }) := by
  decide

/-- C12 (amended). What `ProcessToolCall` does to the conversation, case by
case. If the call decodes, resolves and executes successfully, returning
`content`, then `ProcessToolCall` returns `nil` and the conversation is the
previous one followed by exactly the one message `tool toolCall.ID content`.
If decoding fails, or resolution fails, or `Execute` returns an error or
panics, then `ProcessToolCall` returns that failure (the decode and execution
errors wrapped) and the conversation is left unchanged: the failure text is in
the returned error, not in a message. -/
theorem ProcessToolCall_result_message {σ : Type} (env : Env σ) (toolCall : ToolCall)
    (st : Run σ) :
    (∀ args executor details content w,
        env.unmarshal toolCall.Arguments = Except.ok args →
        getToolExecutor toolCall.Name args = Except.ok (executor, details) →
        executor.Execute env args st.world = (Res.ok content, w) →
        ProcessToolCall env toolCall st
          = (Res.ok (),
              { params := { st.params with
                  Messages := st.params.Messages ++ [Message.tool toolCall.ID content] },
                world := w, trace := st.trace ++ [Event.exec executor args] })) ∧
      (∀ e, env.unmarshal toolCall.Arguments = Except.error e →
        ProcessToolCall env toolCall st = (Res.err ("error parsing arguments: " ++ e), st)) ∧
      (∀ args e, env.unmarshal toolCall.Arguments = Except.ok args →
        getToolExecutor toolCall.Name args = Except.error e →
        ProcessToolCall env toolCall st = (Res.err e, st)) ∧
      (∀ args executor details e w,
        env.unmarshal toolCall.Arguments = Except.ok args →
        getToolExecutor toolCall.Name args = Except.ok (executor, details) →
        executor.Execute env args st.world = (Res.err e, w) →
        ProcessToolCall env toolCall st
          = (Res.err ("error executing tool: " ++ e),
              { st with world := w, trace := st.trace ++ [Event.exec executor args] })) ∧
      (∀ args executor details p w,
        env.unmarshal toolCall.Arguments = Except.ok args →
        getToolExecutor toolCall.Name args = Except.ok (executor, details) →
        executor.Execute env args st.world = (Res.panic p, w) →
        ProcessToolCall env toolCall st
          = (Res.panic p,
              { st with world := w, trace := st.trace ++ [Event.exec executor args] })) ∧
      ((ProcessToolCall env toolCall st).1 ≠ Res.ok () →
        (ProcessToolCall env toolCall st).2.params.Messages = st.params.Messages) := by
  refine ⟨?_, ?_, ?_, ?_, ?_, ?_⟩
  · intro args executor details content w hargs hres hexec
    exact ProcessToolCall_of_success env toolCall st args executor details content w
      hargs hres hexec
  · intro e hargs
    simp only [ProcessToolCall, hargs]
  · intro args e hargs hres
    simp only [ProcessToolCall, hargs, hres]
  · intro args executor details e w hargs hres hexec
    exact ProcessToolCall_of_failure env toolCall st args executor details e w hargs hres hexec
  · intro args executor details p w hargs hres hexec
    simp only [ProcessToolCall, hargs, hres, hexec]
  · intro hne
    cases hargs : env.unmarshal toolCall.Arguments with
    | error e => simp [ProcessToolCall, hargs]
    | ok args =>
      cases hres : getToolExecutor toolCall.Name args with
      | error e => simp [ProcessToolCall, hargs, hres]
      | ok pair =>
        obtain ⟨executor, details⟩ := pair
        rcases hexec : executor.Execute env args st.world with ⟨r, w⟩
        cases r with
        | ok content =>
          exact absurd (by simp [ProcessToolCall, hargs, hres, hexec]) hne
        | err e => simp [ProcessToolCall, hargs, hres, hexec]
        | panic p => simp [ProcessToolCall, hargs, hres, hexec]

/-- Witness for `ProcessToolCall_result_message`: the call `"a"` navigates
successfully and its result is appended as the tool message with id `"a"`. -/
theorem ProcessToolCall_result_message_witness :
    ProcessToolCall (scriptedEnv [] (respond "done" [])) callA
        (Run.init [Message.system "s", Message.user "u",
          Message.completion { Content := "", ToolCalls := [callA] }] 0)
      = (Res.ok (),
          { params := { Messages := [Message.system "s", Message.user "u",
              Message.completion { Content := "", ToolCalls := [callA] },
              Message.tool "a" "Navigated to https://example.org"], Tools := tools },
            world := 0,
            trace := [Event.exec Executor.BrowserNavigator
              [("url", JSONValue.str "https://example.org")]] }) :=
  (ProcessToolCall_result_message (scriptedEnv [] (respond "done" [])) callA
    (Run.init [Message.system "s", Message.user "u",
      Message.completion { Content := "", ToolCalls := [callA] }] 0)).1
    [("url", JSONValue.str "https://example.org")] Executor.BrowserNavigator
    (getStatusMessages "browser_navigate" ["url", "https://example.org"])
    "Navigated to https://example.org" 0 rfl rfl rfl

/-- C13. Suppose the run has gone through `i < maxIterations` iterations and is
in state `st`, and the completion endpoint answers the next request with the
error `e`. Then `Execute` returns the empty result with the error
`OpenAI API error: e`; that request is the last action of the run (`i + 1`
requests in all, no tool executed after it) and the conversation is left as it
was. -/
theorem Execute_endpoint_error {σ : Type} (env : Env σ) (est : Estimator) (buffer : Buffer)
    (maxIterations : Int) (w : σ) (truncated : Buffer) (i : Nat) (st : Run σ) (e : String)
    (w1 : σ)
    (htr : buffer.Truncate est = Except.ok truncated)
    (hi : i < maxIterations.toNat)
    (hrun : runIters env i (Run.init truncated.Messages w) = some st)
    (hc : env.complete st.params st.world = (Except.error e, w1)) :
    Execute env est buffer maxIterations w
        = (Outcome.ret "" (some ("OpenAI API error: " ++ e)),
            { st with world := w1, trace := st.trace ++ [Event.request st.params] }) ∧
      (requestsOf (Execute env est buffer maxIterations w).2.trace).length = i + 1 ∧
      execsOf (Execute env est buffer maxIterations w).2.trace = execsOf st.trace := by
  have hit := iteration_of_error env st e w1 hc
  obtain ⟨k, hk⟩ : ∃ k, maxIterations.toNat = i + (k + 1) :=
    ⟨maxIterations.toNat - i - 1, by omega⟩
  have hexe : Execute env est buffer maxIterations w
      = (Outcome.ret "" (some ("OpenAI API error: " ++ e)),
          { st with world := w1, trace := st.trace ++ [Event.request st.params] }) := by
    simp only [Execute, htr, hk]
    rw [executeLoop_runIters env (k + 1) i _ st hrun]
    simp only [executeLoop, hit, Run.requested]
  refine ⟨hexe, ?_, ?_⟩
  · rw [hexe]
    have hcount := runIters_requests env i _ st hrun
    simp only [requestsOf_append, requestsOf, List.length_append, List.length_singleton, hcount]
    simp [Run.init, requestsOf]
  · rw [hexe]
    simp [execsOf_append, execsOf]

/-- Witness for `Execute_endpoint_error`: the endpoint requests the calls `"a"`
and `"b"` on the first iteration and fails on the second request. -/
theorem Execute_endpoint_error_witness :
    (Execute (scriptedEnv [respond "" [callA, callB]] (Except.error "rate limited"))
          sampleEstimator (NewBuffer "s" "u") 20 0).1
        = Outcome.ret "" (some ("OpenAI API error: " ++ "rate limited")) ∧
      (requestsOf (Execute (scriptedEnv [respond "" [callA, callB]]
          (Except.error "rate limited")) sampleEstimator (NewBuffer "s" "u") 20 0).2.trace).length
        = 1 + 1 := by
  have h := Execute_endpoint_error
    (scriptedEnv [respond "" [callA, callB]] (Except.error "rate limited"))
    sampleEstimator (NewBuffer "s" "u") 20 0 (NewBuffer "s" "u") 1
    (processToolCalls (scriptedEnv [respond "" [callA, callB]] (Except.error "rate limited"))
      [callA, callB] (((Run.init (NewBuffer "s" "u").Messages 0).requested 1).append
        (Message.completion { Content := "", ToolCalls := [callA, callB] }))).2
    "rate limited" 2
    (Truncate_NewBuffer _ _ _) (by decide) rfl rfl
  exact ⟨congrArg Prod.fst h.1, h.2.1⟩

/-! ## Tool results refer to requested calls -/

theorem requestedIDs_append (a b : List Message) :
    requestedIDs (a ++ b) = requestedIDs a ++ requestedIDs b := by
  induction a with
  | nil => rfl
  | cons m rest ih => cases m <;> simp [requestedIDs, ih]

theorem toolResultsReferenced_append (a b : List Message) :
    ∀ seen : List String,
      toolResultsReferenced seen (a ++ b)
        = (toolResultsReferenced seen a && toolResultsReferenced (seen ++ requestedIDs a) b) := by
  induction a with
  | nil => intro seen; simp [toolResultsReferenced, requestedIDs]
  | cons m rest ih =>
    intro seen
    cases m <;> simp [toolResultsReferenced, requestedIDs, ih, Bool.and_assoc]

/-- An id requested in a message list is requested by one of its assistant
response messages. -/
theorem mem_requestedIDs (id : String) :
    ∀ msgs : List Message, id ∈ requestedIDs msgs →
      ∃ msg, Message.completion msg ∈ msgs ∧ ∃ toolCall ∈ msg.ToolCalls, toolCall.ID = id := by
  intro msgs
  induction msgs with
  | nil => intro h; simp [requestedIDs] at h
  | cons m rest ih =>
    intro h
    cases m with
    | completion msg =>
      simp only [requestedIDs, List.mem_append, List.mem_map] at h
      rcases h with ⟨toolCall, hmem, hid⟩ | h
      · exact ⟨msg, by simp, toolCall, hmem, hid⟩
      · obtain ⟨msg1, h1, h2⟩ := ih h
        exact ⟨msg1, by simp [h1], h2⟩
    | system c =>
      obtain ⟨msg1, h1, h2⟩ := ih (by simpa [requestedIDs] using h)
      exact ⟨msg1, by simp [h1], h2⟩
    | user c =>
      obtain ⟨msg1, h1, h2⟩ := ih (by simpa [requestedIDs] using h)
      exact ⟨msg1, by simp [h1], h2⟩
    | assistant c =>
      obtain ⟨msg1, h1, h2⟩ := ih (by simpa [requestedIDs] using h)
      exact ⟨msg1, by simp [h1], h2⟩
    | tool i c =>
      obtain ⟨msg1, h1, h2⟩ := ih (by simpa [requestedIDs] using h)
      exact ⟨msg1, by simp [h1], h2⟩

/-- What the check `toolResultsReferenced` means: each tool-result message of
the list carries an id requested by an assistant response message before it. -/
theorem toolResultsReferenced_spec (msgs pre post : List Message) (id content : String)
    (h : toolResultsReferenced [] msgs = true)
    (hsplit : msgs = pre ++ Message.tool id content :: post) :
    ∃ msg, Message.completion msg ∈ pre ∧ ∃ toolCall ∈ msg.ToolCalls, toolCall.ID = id := by
  subst hsplit
  rw [toolResultsReferenced_append] at h
  simp only [List.nil_append, Bool.and_eq_true, toolResultsReferenced,
    decide_eq_true_eq] at h
  exact mem_requestedIDs id pre h.2.1

theorem toolResultsReferenced_initial_segment (msgs full : List Message)
    (hpre : msgs <+: full) (h : toolResultsReferenced [] full = true) :
    toolResultsReferenced [] msgs = true := by
  obtain ⟨more, rfl⟩ := hpre
  rw [toolResultsReferenced_append] at h
  simp only [Bool.and_eq_true] at h
  exact h.1

/-- The conversation after `ProcessToolCall`: unchanged, or extended by one
tool-result message with the id of the call. -/
theorem ProcessToolCall_messages {σ : Type} (env : Env σ) (toolCall : ToolCall) (st : Run σ) :
    (ProcessToolCall env toolCall st).2.params.Messages = st.params.Messages ∨
      ∃ content, (ProcessToolCall env toolCall st).2.params.Messages
        = st.params.Messages ++ [Message.tool toolCall.ID content] := by
  unfold ProcessToolCall
  split
  · exact Or.inl rfl
  · split
    · exact Or.inl rfl
    · split
      · exact Or.inl rfl
      · exact Or.inl rfl
      · rename_i content w _
        exact Or.inr ⟨content, rfl⟩

/-- The dispatch loop keeps the invariant when the calls it processes were
requested in the conversation. -/
theorem processToolCalls_referenced {σ : Type} (env : Env σ) (calls : List ToolCall) :
    ∀ st : Run σ,
      (∀ toolCall ∈ calls, toolCall.ID ∈ requestedIDs st.params.Messages) →
      toolResultsReferenced [] st.params.Messages = true →
      toolResultsReferenced [] (processToolCalls env calls st).2.params.Messages = true := by
  induction calls with
  | nil => intro st _ h; exact h
  | cons toolCall rest ih =>
    intro st hreq h
    have hstep : toolResultsReferenced []
          (ProcessToolCall env toolCall st).2.params.Messages = true ∧
        ∀ tc ∈ rest, tc.ID ∈ requestedIDs (ProcessToolCall env toolCall st).2.params.Messages := by
      rcases ProcessToolCall_messages env toolCall st with hm | ⟨content, hm⟩
      · rw [hm]
        exact ⟨h, fun tc htc => hreq tc (by simp [htc])⟩
      · rw [hm]
        refine ⟨?_, ?_⟩
        · rw [toolResultsReferenced_append]
          simp [toolResultsReferenced, h, hreq toolCall (by simp)]
        · intro tc htc
          rw [requestedIDs_append]
          simp [requestedIDs, hreq tc (by simp [htc])]
    rcases hp : ProcessToolCall env toolCall st with ⟨r, st1⟩
    rw [hp] at hstep
    cases r with
    | ok u =>
      simp only [processToolCalls, hp]
      exact ih st1 hstep.2 hstep.1
    | err e => simp only [processToolCalls, hp]; exact hstep.1
    | panic p => simp only [processToolCalls, hp]; exact hstep.1

/-- A pass through the loop body keeps the invariant, on the conversation and
on the message list of every request issued so far, however it ends. -/
theorem iteration_referenced {σ : Type} (env : Env σ) (st : Run σ)
    (hmsgs : toolResultsReferenced [] st.params.Messages = true)
    (hreqs : ∀ p ∈ requestsOf st.trace, toolResultsReferenced [] p.Messages = true) :
    ∀ st1, (iteration env st = Step.next st1 ∨ ∃ o, iteration env st = Step.halt o st1) →
      toolResultsReferenced [] st1.params.Messages = true ∧
        ∀ p ∈ requestsOf st1.trace, toolResultsReferenced [] p.Messages = true := by
  have hreq1 : ∀ p ∈ requestsOf st.trace ++ [st.params],
      toolResultsReferenced [] p.Messages = true := by
    intro p hp
    simp only [List.mem_append, List.mem_singleton] at hp
    rcases hp with hp | hp
    · exact hreqs p hp
    · rw [hp]; exact hmsgs
  have hrequested : ∀ w, (st.requested w).params.Messages = st.params.Messages ∧
      requestsOf (st.requested w).trace = requestsOf st.trace ++ [st.params] := by
    intro w
    simp [Run.requested, requestsOf_append, requestsOf]
  intro st1 hst1
  have htrace : requestsOf st1.trace = requestsOf st.trace ++ [st.params] := by
    rcases hst1 with h | ⟨o, h⟩
    · exact (iteration_next env st st1 h).2.2
    · exact iteration_halt env st st1 o h
  refine ⟨?_, by rw [htrace]; exact hreq1⟩
  rcases hc : env.complete st.params st.world with ⟨r, w⟩
  cases r with
  | error e =>
    rw [iteration_of_error env st e w hc] at hst1
    have hst : st.requested w = st1 := by
      rcases hst1 with h | ⟨o, h⟩
      · simp at h
      · simp only [Step.halt.injEq] at h; exact h.2
    rw [← hst, (hrequested w).1]
    exact hmsgs
  | ok completion =>
    cases hch : completion.Choices with
    | nil =>
      rw [iteration_of_noChoice env st completion w hc hch] at hst1
      have hst : st.requested w = st1 := by
        rcases hst1 with h | ⟨o, h⟩
        · simp at h
        · simp only [Step.halt.injEq] at h; exact h.2
      rw [← hst, (hrequested w).1]
      exact hmsgs
    | cons choice others =>
      by_cases ht : choice.Message.ToolCalls = []
      · rw [iteration_of_final env st completion w choice others hc hch ht] at hst1
        have hst : st.requested w = st1 := by
          rcases hst1 with h | ⟨o, h⟩
          · simp at h
          · simp only [Step.halt.injEq] at h; exact h.2
        rw [← hst, (hrequested w).1]
        exact hmsgs
      · have hit := iteration_of_calls env st completion w choice others hc hch ht
        have hstart : ((st.requested w).append (Message.completion choice.Message)).params.Messages
            = st.params.Messages ++ [Message.completion choice.Message] := by
          simp [Run.append, Run.requested]
        have hinv := processToolCalls_referenced env choice.Message.ToolCalls
          ((st.requested w).append (Message.completion choice.Message))
          (by
            intro toolCall hmem
            rw [hstart, requestedIDs_append]
            simp only [requestedIDs, List.append_nil, List.mem_append, List.mem_map]
            exact Or.inr ⟨toolCall, hmem, rfl⟩)
          (by
            rw [hstart, toolResultsReferenced_append]
            simp [toolResultsReferenced, hmsgs])
        rcases hp : processToolCalls env choice.Message.ToolCalls
          ((st.requested w).append (Message.completion choice.Message)) with ⟨r, st3⟩
        rw [hp] at hit hinv
        rw [hit] at hst1
        cases r with
        | ok u =>
          have hst : st3 = st1 := by
            rcases hst1 with h | ⟨o, h⟩
            · simp only [Step.next.injEq] at h; exact h
            · simp at h
          rw [← hst]; exact hinv
        | err e =>
          have hst : st3 = st1 := by
            rcases hst1 with h | ⟨o, h⟩
            · simp at h
            · simp only [Step.halt.injEq] at h; exact h.2
          rw [← hst]; exact hinv
        | panic p =>
          have hst : st3 = st1 := by
            rcases hst1 with h | ⟨o, h⟩
            · simp at h
            · simp only [Step.halt.injEq] at h; exact h.2
          rw [← hst]; exact hinv

theorem executeLoop_referenced {σ : Type} (env : Env σ) :
    ∀ (n : Nat) (st : Run σ),
      toolResultsReferenced [] st.params.Messages = true →
      (∀ p ∈ requestsOf st.trace, toolResultsReferenced [] p.Messages = true) →
      toolResultsReferenced [] (executeLoop env n st).2.params.Messages = true ∧
        ∀ p ∈ requestsOf (executeLoop env n st).2.trace,
          toolResultsReferenced [] p.Messages = true := by
  intro n
  induction n with
  | zero => intro st h1 h2; exact ⟨h1, h2⟩
  | succ n ih =>
    intro st h1 h2
    cases hit : iteration env st with
    | next st1 =>
      obtain ⟨h3, h4⟩ := iteration_referenced env st h1 h2 st1 (Or.inl hit)
      simp only [executeLoop, hit]
      exact ih st1 h3 h4
    | halt o st1 =>
      obtain ⟨h3, h4⟩ := iteration_referenced env st h1 h2 st1 (Or.inr ⟨o, hit⟩)
      simp only [executeLoop, hit]
      exact ⟨h3, h4⟩

/-- C14. In a run of `Execute` started from a buffer holding the two seed
messages, take the conversation at any point: the final conversation or any
initial segment of it (the run only appends, so these are the earlier
conversations), or the message list of any completion request. Every
tool-result message in it carries the id of a tool call requested by an
assistant response message that occurs earlier in the same list. -/
theorem Execute_tool_results_referenced {σ : Type} (env : Env σ) (est : Estimator)
    (systemPrompt userPrompt : String) (maxTokens maxIterations : Int) (w : σ)
    (msgs : List Message)
    (hpoint : msgs <+: (Execute env est
          { Messages := [Message.system systemPrompt, Message.user userPrompt],
            maxTokens := maxTokens } maxIterations w).2.params.Messages ∨
      ∃ p ∈ requestsOf (Execute env est
          { Messages := [Message.system systemPrompt, Message.user userPrompt],
            maxTokens := maxTokens } maxIterations w).2.trace, msgs = p.Messages) :
    toolResultsReferenced [] msgs = true ∧
      ∀ pre id content post, msgs = pre ++ Message.tool id content :: post →
        ∃ msg, Message.completion msg ∈ pre ∧ ∃ toolCall ∈ msg.ToolCalls, toolCall.ID = id := by
  have htr : Buffer.Truncate est
      { Messages := [Message.system systemPrompt, Message.user userPrompt],
        maxTokens := maxTokens }
      = Except.ok (Buffer.mk [Message.system systemPrompt, Message.user userPrompt]
          maxTokens) := by
    simp [Buffer.Truncate, truncateLoop]
  have hinv := executeLoop_referenced env maxIterations.toNat
    (Run.init [Message.system systemPrompt, Message.user userPrompt] w)
    (by simp [Run.init, toolResultsReferenced]) (by simp [Run.init, requestsOf])
  simp only [Execute, htr] at hpoint
  have hok : toolResultsReferenced [] msgs = true := by
    rcases hpoint with hpre | ⟨p, hp, rfl⟩
    · exact toolResultsReferenced_initial_segment msgs _ hpre hinv.1
    · exact hinv.2 p hp
  exact ⟨hok, fun pre id content post hsplit =>
    toolResultsReferenced_spec msgs pre post id content hok hsplit⟩

/-- Witness for `Execute_tool_results_referenced`: the conversation after the
calls `"a"` and `"b"` of the example scenario have been dispatched and the
endpoint has given its final answer; the tool result for `"b"` refers to the
response that requested it. -/
theorem Execute_tool_results_referenced_witness :
    ∃ msg, Message.completion msg ∈
        [Message.system "s", Message.user "u",
          Message.completion { Content := "", ToolCalls := [callA, callB] },
          Message.tool "a" "Navigated to https://example.org"] ∧
      ∃ toolCall ∈ msg.ToolCalls, toolCall.ID = "b" :=
  (Execute_tool_results_referenced
    (scriptedEnv [respond "" [callA, callB]] (respond "done" [])) sampleEstimator "s" "u"
    128000 20 0
    [Message.system "s", Message.user "u",
      Message.completion { Content := "", ToolCalls := [callA, callB] },
      Message.tool "a" "Navigated to https://example.org",
      Message.tool "b" "content of body"]
    (Or.inl (by decide))).2
    [Message.system "s", Message.user "u",
      Message.completion { Content := "", ToolCalls := [callA, callB] },
      Message.tool "a" "Navigated to https://example.org"]
    "b" "content of body" [] rfl

/-! ## The exhaustion failure is told apart from the others -/

/-- A text that starts with a character other than `r` is not the text of the
exhaustion failure. -/
theorem ne_exhausted_of_head (c : Char) (cs : List Char) (e : String) (hc : c ≠ 'r') :
    String.mk (c :: cs) ++ e ≠ "reached maximum iterations without resolution" := by
  intro h
  have hd := congrArg String.data h
  rw [String.data_append] at hd
  have hhead := congrArg List.head? hd
  simp at hhead
  exact hc hhead

theorem getToolExecutor_error_ne_exhausted (toolName : String) (args : Args) (e : String)
    (h : getToolExecutor toolName args = Except.error e) :
    e ≠ "reached maximum iterations without resolution" := by
  unfold getToolExecutor at h
  split at h
  · simp at h
  · split at h
    · split at h
      · simp only [Except.error.injEq] at h
        rw [← h]; decide
      · simp at h
    · split at h
      · split at h
        · simp only [Except.error.injEq] at h
          rw [← h]; decide
        · simp at h
      · split at h
        · split at h
          · simp only [Except.error.injEq] at h
            rw [← h]; decide
          · simp at h
        · split at h
          · simp at h
          · simp only [Except.error.injEq] at h
            rw [← h]
            exact ne_exhausted_of_head 'u' _ toolName (by decide)

theorem ProcessToolCall_error_ne_exhausted {σ : Type} (env : Env σ) (toolCall : ToolCall)
    (st : Run σ) (e : String) (h : (ProcessToolCall env toolCall st).1 = Res.err e) :
    e ≠ "reached maximum iterations without resolution" := by
  cases hargs : env.unmarshal toolCall.Arguments with
  | error e1 =>
    simp only [ProcessToolCall, hargs, Res.err.injEq] at h
    rw [← h]
    exact ne_exhausted_of_head 'e' _ e1 (by decide)
  | ok args =>
    cases hres : getToolExecutor toolCall.Name args with
    | error e1 =>
      simp only [ProcessToolCall, hargs, hres, Res.err.injEq] at h
      rw [← h]
      exact getToolExecutor_error_ne_exhausted toolCall.Name args e1 hres
    | ok pair =>
      obtain ⟨executor, details⟩ := pair
      rcases hexec : executor.Execute env args st.world with ⟨r, w⟩
      cases r with
      | ok content => simp [ProcessToolCall, hargs, hres, hexec] at h
      | panic p => simp [ProcessToolCall, hargs, hres, hexec] at h
      | err e1 =>
        simp only [ProcessToolCall, hargs, hres, hexec, Res.err.injEq] at h
        rw [← h]
        exact ne_exhausted_of_head 'e' _ e1 (by decide)

theorem processToolCalls_error_ne_exhausted {σ : Type} (env : Env σ) (calls : List ToolCall) :
    ∀ (st : Run σ) (e : String), (processToolCalls env calls st).1 = Res.err e →
      e ≠ "reached maximum iterations without resolution" := by
  induction calls with
  | nil => intro st e h; simp [processToolCalls] at h
  | cons toolCall rest ih =>
    intro st e h
    rcases hp : ProcessToolCall env toolCall st with ⟨r, st1⟩
    cases r with
    | ok u =>
      simp only [processToolCalls, hp] at h
      exact ih st1 e h
    | panic p => simp [processToolCalls, hp] at h
    | err e1 =>
      simp only [processToolCalls, hp, Res.err.injEq] at h
      rw [← h]
      exact ProcessToolCall_error_ne_exhausted env toolCall st e1 (by rw [hp])

/-- No pass through the loop body ends the run with the exhaustion failure. -/
theorem iteration_halt_ne_exhausted {σ : Type} (env : Env σ) (st st1 : Run σ) (o : Outcome)
    (r : String) (h : iteration env st = Step.halt o st1) :
    o ≠ Outcome.ret r (some "reached maximum iterations without resolution") := by
  rcases hc : env.complete st.params st.world with ⟨res, w⟩
  cases res with
  | error e =>
    rw [iteration_of_error env st e w hc] at h
    simp only [Step.halt.injEq] at h
    rw [← h.1]
    intro heq
    simp only [Outcome.ret.injEq, Option.some.injEq] at heq
    exact ne_exhausted_of_head 'O' _ e (by decide) heq.2
  | ok completion =>
    cases hch : completion.Choices with
    | nil =>
      rw [iteration_of_noChoice env st completion w hc hch] at h
      simp only [Step.halt.injEq] at h
      rw [← h.1]
      simp
    | cons choice others =>
      by_cases ht : choice.Message.ToolCalls = []
      · rw [iteration_of_final env st completion w choice others hc hch ht] at h
        simp only [Step.halt.injEq] at h
        rw [← h.1]
        simp
      · rw [iteration_of_calls env st completion w choice others hc hch ht] at h
        rcases hp : processToolCalls env choice.Message.ToolCalls
          ((st.requested w).append (Message.completion choice.Message)) with ⟨res, st3⟩
        rw [hp] at h
        cases res with
        | ok u => simp at h
        | panic p =>
          simp only [Step.halt.injEq] at h
          rw [← h.1]
          simp
        | err e =>
          simp only [Step.halt.injEq] at h
          rw [← h.1]
          intro heq
          simp only [Outcome.ret.injEq, Option.some.injEq] at heq
          exact processToolCalls_error_ne_exhausted env _ _ e (by rw [hp]) heq.2

/-- The loop returns the exhaustion failure only when every one of its `n`
passes went on to the next. -/
theorem executeLoop_exhausted_only {σ : Type} (env : Env σ) :
    ∀ (n : Nat) (st : Run σ) (r : String),
      (executeLoop env n st).1
          = Outcome.ret r (some "reached maximum iterations without resolution") →
      ∃ final, runIters env n st = some final := by
  intro n
  induction n with
  | zero => intro st r _; exact ⟨st, rfl⟩
  | succ n ih =>
    intro st r h
    cases hit : iteration env st with
    | next st1 =>
      simp only [executeLoop, hit] at h
      obtain ⟨final, hfinal⟩ := ih st1 r h
      exact ⟨final, by simp only [runIters, hit]; exact hfinal⟩
    | halt o st1 =>
      simp only [executeLoop, hit] at h
      exact absurd h (iteration_halt_ne_exhausted env st st1 o r hit)

/-- C15. The failure `reached maximum iterations without resolution` is told
apart from every other failure of `Execute`: it differs from every
completion-endpoint failure, argument-decode failure, resolution failure
(missing argument or unknown tool) and tool-execution failure, whatever the
tool name, argument map or underlying error text; no pass through the loop
body ends the run with it; and `Execute` returns it only when the initial
truncation returned and all `maxIterations` iterations went on to the next. -/
theorem exhaustion_distinguishable {σ : Type} (env : Env σ) :
    (∀ e : String,
        "OpenAI API error: " ++ e ≠ "reached maximum iterations without resolution") ∧
      (∀ e : String,
        "error parsing arguments: " ++ e ≠ "reached maximum iterations without resolution") ∧
      (∀ (toolName : String) (args : Args) (e : String),
        getToolExecutor toolName args = Except.error e →
          e ≠ "reached maximum iterations without resolution") ∧
      (∀ e : String,
        "error executing tool: " ++ e ≠ "reached maximum iterations without resolution") ∧
      (∀ (toolCall : ToolCall) (st : Run σ) (e : String),
        (ProcessToolCall env toolCall st).1 = Res.err e →
          e ≠ "reached maximum iterations without resolution") ∧
      (∀ (st st1 : Run σ) (o : Outcome) (r : String), iteration env st = Step.halt o st1 →
        o ≠ Outcome.ret r (some "reached maximum iterations without resolution")) ∧
      (∀ (est : Estimator) (buffer : Buffer) (maxIterations : Int) (w : σ) (r : String),
        (Execute env est buffer maxIterations w).1
            = Outcome.ret r (some "reached maximum iterations without resolution") →
          ∃ truncated final, buffer.Truncate est = Except.ok truncated ∧
            runIters env maxIterations.toNat (Run.init truncated.Messages w) = some final) := by
  refine ⟨fun e => ne_exhausted_of_head 'O' _ e (by decide),
    fun e => ne_exhausted_of_head 'e' _ e (by decide),
    getToolExecutor_error_ne_exhausted,
    fun e => ne_exhausted_of_head 'e' _ e (by decide),
    ProcessToolCall_error_ne_exhausted env,
    fun st st1 o r h => iteration_halt_ne_exhausted env st st1 o r h, ?_⟩
  intro est buffer maxIterations w r h
  cases htr : buffer.Truncate est with
  | error p => simp [Execute, htr] at h
  | ok truncated =>
    simp only [Execute, htr] at h
    obtain ⟨final, hfinal⟩ := executeLoop_exhausted_only env _ _ r h
    exact ⟨truncated, final, rfl, hfinal⟩

/-- Witness for `exhaustion_distinguishable`: a run whose first request fails at
the endpoint ends with `OpenAI API error: rate limited`, not with the
exhaustion failure; and the unknown tool `nope` is reported by another text. -/
theorem exhaustion_distinguishable_witness :
    Outcome.ret "" (some ("OpenAI API error: " ++ "rate limited"))
        ≠ Outcome.ret "" (some "reached maximum iterations without resolution") ∧
      "unknown tool: " ++ "nope" ≠ "reached maximum iterations without resolution" :=
  ⟨(exhaustion_distinguishable (scriptedEnv [] (Except.error "rate limited"))).2.2.2.2.2.1
      (Run.init [Message.system "s", Message.user "u"] 0)
      ((Run.init [Message.system "s", Message.user "u"] 0).requested 1)
      (Outcome.ret "" (some ("OpenAI API error: " ++ "rate limited"))) "" rfl,
    (exhaustion_distinguishable (scriptedEnv [] (Except.error "rate limited"))).2.2.1
      "nope" [] ("unknown tool: " ++ "nope") rfl⟩

/-! ## Truncation: short buffers and totality -/

/-- C16. On a buffer holding fewer than two messages (none or one) `Truncate`
is a no-op: it returns the buffer unchanged, whatever `maxTokens`, the
estimator and the message are. -/
theorem Truncate_short_noop (est : Estimator) (b : Buffer) (h : b.Messages.length < 2) :
    b.Truncate est = Except.ok b := by
  unfold Buffer.Truncate
  split
  · rfl
  · rfl
  · rename_i m0 m1 rest hm
    rw [hm] at h
    simp only [List.length_cons] at h
    omega

/-- Witness for `Truncate_short_noop`: a single tool-result message under
`maxTokens = 0`, a budget of `-500` that its cost exceeds. -/
theorem Truncate_short_noop_witness :
    [Message.tool "a" "result"].length < 2 ∧
      ¬ tokensOf sampleEstimator [Message.tool "a" "result"] ≤ (0 : Int) - 500 ∧
      Buffer.Truncate sampleEstimator { Messages := [Message.tool "a" "result"], maxTokens := 0 }
        = Except.ok { Messages := [Message.tool "a" "result"], maxTokens := 0 } :=
  ⟨by decide, by decide,
    Truncate_short_noop sampleEstimator
      { Messages := [Message.tool "a" "result"], maxTokens := 0 } (by decide)⟩

/-- C17 (evaluation at the failing inputs). Two buffers reachable from
`NewBuffer` on which `Truncate` does not return. After two `Add` calls the
backward walk admits both trailing messages and slices the one-element list
`truncatedMessages` from index 2. After `Add`, `Truncate` (which leaves the
assistant message alone) and another `Add`, the first message is no longer a
system message and the type assertion on it fails. -/
theorem Truncate_reachable_panics :
    Buffer.Truncate sampleEstimator
        (((NewBuffer "s" "u").Add "assistant" "a").Add "assistant" "b")
        = Except.error Panic.sliceBounds ∧
      Buffer.Truncate sampleEstimator ((NewBuffer "s" "u").Add "assistant" "a")
        = Except.ok { Messages := [Message.assistant "a"], maxTokens := 128000 } ∧
      Buffer.Truncate sampleEstimator
        (Buffer.Add { Messages := [Message.assistant "a"], maxTokens := 128000 } "user" "b")
        = Except.error Panic.typeAssertion := by
  refine ⟨by decide, by decide, by decide⟩

end Milkshake
